import Mathlib

/-!
Verification of the `statsneighborhoods` information-theory pipeline
(`information.py`) and the moment/cumulant utility (`cumulants.py`).

The embedding mirrors the source:
* a `CensusFrame` holds the raw census table (bin counts, total column and
  group key per unit row) together with the configuration fixed at
  construction (`tot_col`, `group_col`, `group_name`; `binCols` is the
  ordered result of filtering the columns with `bin_regex`, i.e. the
  BinSelector output);
* floating-point results are modelled by `PVal` (NaN / +inf / -inf /
  an exact real / a categorical string), with IEEE-style division,
  multiplication and addition on the cases the pipeline exercises;
* `scipy.stats.entropy` (with the fixed `LOG_BASE = 2`) is modelled by
  `stats_entropy` / `stats_kl` on rational count vectors: scipy first
  normalises the input by its sum (an all-zero vector yields NaN through
  the 0/0 normalisation) and divides the natural-log result by `log 2`;
* pandas frames are modelled by `DF`: an explicit row-key list, a column
  list and a total value function that is NaN outside the frame's domain
  (pandas frames are only defined on their own index/columns).
-/

namespace StatsNbhd

/-- Python exception kinds raised by the modelled code paths. -/
inductive PyErr where
  | typeError : PyErr
  | keyError : PyErr
  | attributeError : PyErr
  | valueError : PyErr
  | indexError : PyErr
  | nameError : String → PyErr
  | exception : PyErr
deriving DecidableEq, Repr

/-- Value of one cell of a pandas frame: a float (NaN, an infinity or a
finite real, the latter exact rather than rounded) or a categorical
string (only ever used for the group-name column, which no modelled
computation reads). -/
inductive PVal where
  | nan : PVal
  | inf : PVal
  | ninf : PVal
  | val : ℝ → PVal
  | str : String → PVal

/-- IEEE-style division on `PVal` for the cases the pipeline exercises
(pandas/numpy float division; `x/0` is `±inf` for `x ≠ 0` and NaN for
`0/0`).  String operands never occur in the modelled computations. -/
noncomputable def pdiv : PVal → PVal → PVal
  | PVal.nan, _ => PVal.nan
  | _, PVal.nan => PVal.nan
  | PVal.str _, _ => PVal.nan
  | _, PVal.str _ => PVal.nan
  | PVal.val a, PVal.val b =>
      if b = 0 then (if a = 0 then PVal.nan else if 0 < a then PVal.inf else PVal.ninf)
      else PVal.val (a / b)
  | PVal.inf, PVal.val b => if 0 ≤ b then PVal.inf else PVal.ninf
  | PVal.ninf, PVal.val b => if 0 ≤ b then PVal.ninf else PVal.inf
  | PVal.val _, PVal.inf => PVal.val 0
  | PVal.val _, PVal.ninf => PVal.val 0
  | PVal.inf, PVal.inf => PVal.nan
  | PVal.inf, PVal.ninf => PVal.nan
  | PVal.ninf, PVal.inf => PVal.nan
  | PVal.ninf, PVal.ninf => PVal.nan

/-- IEEE-style multiplication on `PVal` (`inf * 0` is NaN). -/
noncomputable def pmul : PVal → PVal → PVal
  | PVal.nan, _ => PVal.nan
  | _, PVal.nan => PVal.nan
  | PVal.str _, _ => PVal.nan
  | _, PVal.str _ => PVal.nan
  | PVal.val a, PVal.val b => PVal.val (a * b)
  | PVal.inf, PVal.val b => if b = 0 then PVal.nan else if 0 < b then PVal.inf else PVal.ninf
  | PVal.val a, PVal.inf => if a = 0 then PVal.nan else if 0 < a then PVal.inf else PVal.ninf
  | PVal.ninf, PVal.val b => if b = 0 then PVal.nan else if 0 < b then PVal.ninf else PVal.inf
  | PVal.val a, PVal.ninf => if a = 0 then PVal.nan else if 0 < a then PVal.ninf else PVal.inf
  | PVal.inf, PVal.inf => PVal.inf
  | PVal.inf, PVal.ninf => PVal.ninf
  | PVal.ninf, PVal.inf => PVal.ninf
  | PVal.ninf, PVal.ninf => PVal.inf

/-- IEEE-style addition on `PVal` (`inf + (-inf)` is NaN). -/
noncomputable def padd : PVal → PVal → PVal
  | PVal.nan, _ => PVal.nan
  | _, PVal.nan => PVal.nan
  | PVal.str _, _ => PVal.nan
  | _, PVal.str _ => PVal.nan
  | PVal.val a, PVal.val b => PVal.val (a + b)
  | PVal.inf, PVal.val _ => PVal.inf
  | PVal.val _, PVal.inf => PVal.inf
  | PVal.ninf, PVal.val _ => PVal.ninf
  | PVal.val _, PVal.ninf => PVal.ninf
  | PVal.inf, PVal.inf => PVal.inf
  | PVal.ninf, PVal.ninf => PVal.ninf
  | PVal.inf, PVal.ninf => PVal.nan
  | PVal.ninf, PVal.inf => PVal.nan

/-- Sum of a list of `PVal`s, as numpy sums a float row (zero start). -/
noncomputable def pvalSum (l : List PVal) : PVal := l.foldl padd (PVal.val 0)

/-- NaN test on a `PVal` (pandas `isna` on a float cell). -/
def PVal.isNan : PVal → Bool
  | PVal.nan => true
  | _ => false

/-- Sum of a float row as pandas `DataFrame.sum(axis=1)` computes it with
its default `skipna=True`: NaN entries are dropped and the remaining
entries are summed (an all-NaN or empty row sums to `0.0`). -/
noncomputable def pvalSumSkipNan (l : List PVal) : PVal :=
  pvalSum (l.filter (fun v => ! v.isNan))

/-- One cell of `.replace([np.inf, -np.inf], np.nan)`. -/
def replaceInfNan : PVal → PVal
  | PVal.inf => PVal.nan
  | PVal.ninf => PVal.nan
  | v => v

/-- Row key of a tracked frame: either a unit (neighborhood) row number or
a group (city) name — the two index kinds the pipeline produces. -/
inductive RKey where
  | unit : ℕ → RKey
  | grp : String → RKey
deriving DecidableEq, Repr

/-- A pandas DataFrame: explicit index, explicit column list, and a value
function (kept NaN outside the frame's own index × columns). -/
structure DF where
  idx : List RKey
  cols : List String
  val : RKey → String → PVal

/-- Smart constructor normalising the value function to NaN outside the
frame's domain, so frames with equal contents are equal. -/
noncomputable def mkDF (idx : List RKey) (cols : List String)
    (f : RKey → String → PVal) : DF :=
  ⟨idx, cols, fun k c => if k ∈ idx ∧ c ∈ cols then f k c else PVal.nan⟩

/-- Model of `df[old_cols].join(new_df, how='outer')` as performed by
`_append_to_df`: columns of `df` whose names occur in `new` are dropped
(then re-added from `new`), absent columns of `new` are appended, and the
indices are outer-joined (rows on one side only keep NaN for the other
side's columns).  pandas sorts the `difference` columns and the union
index; only membership, counts and values are observed by the spec, so
the model keeps insertion order. -/
noncomputable def DF.appendJoin (df new : DF) : DF where
  idx := df.idx ++ new.idx.filter (fun k => decide (k ∉ df.idx))
  cols := df.cols.filter (fun c => decide (c ∉ new.cols)) ++ new.cols
  val := fun k c =>
    if c ∈ new.cols then (if k ∈ new.idx then new.val k c else PVal.nan)
    else if k ∈ df.idx then df.val k c else PVal.nan

/-- The census table plus the construction-time configuration
(`CensusFrame.__init__`).  `binCols` is the ordered list of bin columns
selected by `bin_regex` (the `_filter` result); `bins`, `tot` and `group`
read one unit row's cells. -/
structure CensusFrame where
  nrows : ℕ
  binCols : List String
  bins : ℕ → String → ℚ
  tot : ℕ → ℚ
  group : ℕ → String
  tot_col : String
  group_col : String
  group_name : String

namespace CensusFrame

/-- Unit-row keys of the original table, in table order. -/
def unitKeys (cf : CensusFrame) : List RKey :=
  (List.range cf.nrows).map RKey.unit

/-- Row numbers belonging to group `g` (`self._grouped()` partition). -/
def rowsOf (cf : CensusFrame) (g : String) : List ℕ :=
  (List.range cf.nrows).filter (fun i => decide (cf.group i = g))

/-- The distinct group names, in first-occurrence order.  pandas
`groupby(sort=True)` sorts group keys; no modelled claim observes the
order, only membership and count, which agree. -/
def groupsList (cf : CensusFrame) : List String :=
  ((List.range cf.nrows).map cf.group).dedup

/-- Group-row keys, aligned with `groupsList`. -/
def grpKeys (cf : CensusFrame) : List RKey :=
  (cf.groupsList).map RKey.grp

/-- Per-group sum of one bin column (`self._grouped().sum()` cell). -/
def groupSumBin (cf : CensusFrame) (g : String) (c : String) : ℚ :=
  ((cf.rowsOf g).map (fun i => cf.bins i c)).sum

/-- Per-group sum of the total column. -/
def groupTot (cf : CensusFrame) (g : String) : ℚ :=
  ((cf.rowsOf g).map cf.tot).sum

/-- Columns of the raw table as modelled (bin columns, the total column
and the group-key column). -/
def selfCols (cf : CensusFrame) : List String :=
  cf.binCols ++ [cf.tot_col, cf.group_col]

end CensusFrame

/-- Fixed log base for every entropy/information calculation
(`CensusFrame.LOG_BASE`). -/
def LOG_BASE : ℕ := 2

/-- The summand `-p log p` of Shannon entropy with scipy's convention
`entr 0 = 0` (natural log; the base division happens in `stats_entropy`). -/
noncomputable def entr (p : ℝ) : ℝ :=
  if p = 0 then 0 else -(p * Real.log p)

/-- The summand `p log (p/q)` of relative entropy with scipy's convention
`rel_entr 0 q = 0`. -/
noncomputable def relEntr (p q : ℝ) : ℝ :=
  if p = 0 then 0 else p * Real.log (p / q)

/-- Model of `scipy.stats.entropy(pk, base=2)` on a vector of (nonnegative)
rational counts, as called through `CensusFrame._entropy`: `pk` is first
normalised by its sum, then `Σ entr(p)` is divided by `log 2`.  On the
empty vector no entry is ever divided and the empty sum is `0.0`;
a NONEMPTY all-zero vector makes every normalised entry 0/0 = NaN,
hence a NaN result. -/
noncomputable def stats_entropy (pk : List ℚ) : PVal :=
  if pk = [] then PVal.val 0
  else if pk.sum = 0 then PVal.nan
  else PVal.val (((pk.map (fun x : ℚ => entr ((x : ℝ) / (pk.sum : ℝ)))).sum)
    / Real.log LOG_BASE)

/-- Model of `scipy.stats.entropy(pk, qk, base=2)` (KL divergence) on two
vectors of equal length (every pipeline call aligns them to the same bin
or row list): both vectors are normalised by their sums (on the empty
pair the empty sum is `0.0`; a zero sum of a NONEMPTY vector yields
NaN); a reference bin with zero mass under a positive `pk` bin yields
`+inf` (`rel_entr(p, 0) = inf`); otherwise `Σ rel_entr(p, q) / log 2`. -/
noncomputable def stats_kl (pk qk : List ℚ) : PVal :=
  if pk = [] then PVal.val 0
  else if pk.sum = 0 ∨ qk.sum = 0 then PVal.nan
  else if (pk.zip qk).any (fun pq => decide (pq.2 = 0) && decide (pq.1 ≠ 0)) then PVal.inf
  else PVal.val ((((pk.zip qk).map
    (fun pq : ℚ × ℚ => relEntr ((pq.1 : ℝ) / (pk.sum : ℝ))
      ((pq.2 : ℝ) / (qk.sum : ℝ)))).sum) / Real.log LOG_BASE)

/-- The `_W$` regex test driving `df.filter(regex='_W$')`: the name's
character data ends in `'_', 'W'`. -/
def matchesWSuffix (s : String) : Bool :=
  match s.data.reverse with
  | 'W' :: '_' :: _ => true
  | _ => false

/-- Column names of the `nhood_weights` group-sums join, in join order
(computable companion of `joinedWeightTable`). -/
def joinedWeightKeys (cf : CensusFrame) : List String :=
  cf.binCols ++ [cf.tot_col, cf.group_col]
  ++ cf.binCols.map (fun c => c ++ "_" ++ cf.group_name)
  ++ [cf.tot_col ++ "_" ++ cf.group_name]

namespace CensusFrame

/-- Pipeline operation `p_n`: the unit's share of its group's total,
`df[tot_col] / df[tot_col + '_' + group_name]` over the group-sums join
(this one uses the configured `group_name` suffix, so the join columns
always resolve). -/
noncomputable def p_n_df (cf : CensusFrame) : DF :=
  mkDF cf.unitKeys ["p(n)"] (fun k _ => match k with
    | RKey.unit i => pdiv (PVal.val (cf.tot i)) (PVal.val (cf.groupTot (cf.group i)))
    | _ => PVal.nan)

/-- Column layout of `_join_group_sums(regex=tot_col + '|' + bin_regex)`
as used by `nhood_weights`: the raw table's columns followed by the
group-summed bin and total columns, each suffixed with
`'_' + group_name` (every summed column overlaps a left column, so the
`rsuffix` applies to all of them). -/
noncomputable def joinedWeightTable (cf : CensusFrame) : List (String × (ℕ → PVal)) :=
  (cf.binCols.map (fun c => (c, fun i => PVal.val (cf.bins i c))))
  ++ [(cf.tot_col, fun i => PVal.val (cf.tot i)),
      (cf.group_col, fun i => PVal.str (cf.group i))]
  ++ (cf.binCols.map (fun c =>
      (c ++ "_" ++ cf.group_name, fun i => PVal.val (cf.groupSumBin (cf.group i) c))))
  ++ [(cf.tot_col ++ "_" ++ cf.group_name, fun i => PVal.val (cf.groupTot (cf.group i)))]

/-- Read of one cell `df[c][i]` of the mutable joined frame, as a
first-match association-list lookup (an entry prepended by a later write
shadows an older column of the same name, modelling pandas' in-place
assignment). -/
noncomputable def readCol (tbl : List (String × (ℕ → PVal))) (c : String)
    (i : ℕ) : PVal :=
  ((tbl.lookup c).getD (fun _ => PVal.nan)) i

/-- The `nhood_weights` loop
`for col in ...: df[col+'_W'] = (df[col]/nhood_total)/(df[col+'_CITY']/city_total)`
over the remaining loop columns: each iteration PREPENDS the freshly
written weight column to the frame, so every later read — including a
read of a column the assignment just overwrote — resolves to the
freshest write; `nhood_total` and `city_total` are the two series
captured from the joined frame before the loop. -/
noncomputable def weightLoop (cf : CensusFrame) :
    List (String × (ℕ → PVal)) → List String → List (String × (ℕ → PVal))
  | tbl, [] => tbl
  | tbl, col :: rest =>
      weightLoop cf
        ((col ++ "_W", fun i =>
          pdiv (pdiv (readCol tbl col i)
                     (readCol (joinedWeightTable cf) cf.tot_col i))
               (pdiv (readCol tbl (col ++ "_CITY") i)
                     (readCol (joinedWeightTable cf)
                       (cf.tot_col ++ "_CITY") i))) :: tbl)
        rest

/-- Columns of the joined frame after the loop, in pandas order: an
assignment to an existing label keeps its place, a new label is appended
on the right. -/
def weightFinalCols (cf : CensusFrame) : List String :=
  joinedWeightKeys cf
    ++ (cf.binCols.map (fun c => c ++ "_W")).filter
        (fun c => decide (c ∉ joinedWeightKeys cf))

/-- Pipeline operation `nhood_weights`: captures
`city_total = df[self.tot_col + '_CITY']` under the HARD-CODED suffix
`'_CITY'` (a missing column is a `KeyError`, likewise a loop read of a
missing `col + '_CITY'`); then the loop assigns each weight column
`col + '_W'` IN PLACE
(`df[col+'_W'] = (df[col]/nhood_total)/(df[col+'_CITY']/city_total)` —
later iterations read the updated frame), and the columns matching
`_W$` are returned with `±inf` replaced by NaN.  The loop's column list
is the bin-regex selection `cf.binCols` (the selection the data's
anchored bin regex makes on the joined frame). -/
noncomputable def nhood_weights_df (cf : CensusFrame) : Except PyErr DF :=
  match (joinedWeightTable cf).lookup (cf.tot_col ++ "_CITY") with
  | none => Except.error PyErr.keyError
  | some _ =>
    if _h : ∀ c ∈ cf.binCols, ((joinedWeightTable cf).lookup (c ++ "_CITY")).isSome then
      Except.ok (mkDF cf.unitKeys ((weightFinalCols cf).filter matchesWSuffix)
        (fun k wcol => match k with
          | RKey.unit i => replaceInfNan
              (readCol (weightLoop cf (joinedWeightTable cf) cf.binCols) wcol i)
          | _ => PVal.nan))
    else Except.error PyErr.keyError

/-- Pipeline operation `entropy_y`: per-row entropy of the row's own bin
vector when `conditional`, per-group entropy of the group's aggregate bin
vector otherwise. -/
noncomputable def entropy_y_df (cf : CensusFrame) (conditional : Bool) : DF :=
  if conditional then
    mkDF cf.unitKeys ["H(y|n)"] (fun k _ => match k with
      | RKey.unit i => stats_entropy (cf.binCols.map (fun c => cf.bins i c))
      | _ => PVal.nan)
  else
    mkDF cf.grpKeys ["H(y)"] (fun k _ => match k with
      | RKey.grp g => stats_entropy (cf.binCols.map (fun c => cf.groupSumBin g c))
      | _ => PVal.nan)

/-- Pipeline operation `dkl_y`: per-row KL divergence of the row's bin
vector from its group's summed bin vector (the `'_' + group_name`
suffixed join columns). -/
noncomputable def dkl_y_df (cf : CensusFrame) : DF :=
  mkDF cf.unitKeys ["DKL(y|n)"] (fun k _ => match k with
    | RKey.unit i => stats_kl (cf.binCols.map (fun c => cf.bins i c))
        (cf.binCols.map (fun c => cf.groupSumBin (cf.group i) c))
    | _ => PVal.nan)

/-- The within-group unit-share vector `p_n` built inside `entropy_n` and
`dkl_n` (row totals divided by the group total; a zero group total makes
the float entries NaN, matched by the all-zero rational vector which
`stats_entropy`/`stats_kl` map to NaN). -/
def pnVec (cf : CensusFrame) (g : String) : List ℚ :=
  (cf.rowsOf g).map (fun i => cf.tot i / cf.groupTot g)

/-- The `H(n|y)_<bin>` and `H(n)` columns produced by `entropy_n` (one row
per group; `H(n)` is the entropy of the unit-share vector, `H(n|y)_b` the
entropy of bin `b`'s column across the group's rows). -/
noncomputable def entropy_n_H_df (cf : CensusFrame) : DF :=
  mkDF cf.grpKeys (cf.binCols.map (fun c => "H(n|y)_" ++ c) ++ ["H(n)"])
    (fun k col => match k with
      | RKey.grp g =>
          if col = "H(n)" then stats_entropy (cf.pnVec g)
          else match cf.binCols.find? (fun b => col = "H(n|y)_" ++ b) with
            | some b => stats_entropy ((cf.rowsOf g).map (fun i => cf.bins i b))
            | none => PVal.nan
      | _ => PVal.nan)

/-- The per-bin `DKL(n|y)_<bin>` table (one row per group) computed by
`_dkl_n_group`, as assembled by either `entropy_n(calc_dkl=True)` or a
fresh `dkl_n` run: KL divergence of bin `b`'s column across the group's
rows from the group's unit-share vector. -/
noncomputable def freshDKLn (cf : CensusFrame) : DF :=
  mkDF cf.grpKeys (cf.binCols.map (fun c => "DKL(n|y)_" ++ c))
    (fun k col => match k with
      | RKey.grp g =>
          match cf.binCols.find? (fun b => col = "DKL(n|y)_" ++ b) with
          | some b => stats_kl ((cf.rowsOf g).map (fun i => cf.bins i b)) (cf.pnVec g)
          | none => PVal.nan
      | _ => PVal.nan)

end CensusFrame

/-- Model of `concat([a, b], axis=1)` on frames sharing one index. -/
noncomputable def DF.hconcat (a b : DF) : DF :=
  mkDF a.idx (a.cols ++ b.cols)
    (fun k c => if c ∈ b.cols then b.val k c else a.val k c)

namespace CensusFrame

/-- Pipeline operation `mutual_info` applied to the per-bin DKL table `d`
(`self.dkl_n()`'s return): `N_l`, the group-sum bin matrix divided
row-wise by the group totals, is multiplied positionally
(`N_l * DKL` on `.values`) with `d`'s columns and summed along bins by
`DataFrame(N_l*DKL, ...).sum(axis=1)` — a pandas sum whose default
`skipna=True` silently drops NaN products. -/
noncomputable def mi_df (cf : CensusFrame) (d : DF) : DF :=
  mkDF d.idx ["MI"] (fun k _ => match k with
    | RKey.grp g =>
        pvalSumSkipNan ((cf.binCols.zip d.cols).map (fun bc =>
          pmul (pdiv (PVal.val (cf.groupSumBin g bc.1)) (PVal.val (cf.groupTot g)))
               (d.val (RKey.grp g) bc.2)))
    | _ => PVal.nan)

/-- Numeric columns of the raw table (what `_grouped().sum()` carries). -/
def cfNumCols (cf : CensusFrame) : List String := cf.binCols ++ [cf.tot_col]

/-- Cell of the raw table in a numeric column. -/
def cfNumVal (cf : CensusFrame) (i : ℕ) (c : String) : ℚ :=
  if c = cf.tot_col then cf.tot i else cf.bins i c

/-- Number of rows of group `g`. -/
def groupLen (cf : CensusFrame) (g : String) : ℕ := (cf.rowsOf g).length

/-- Group mean of the total (weight) column, `group[wt_col].mean()`. -/
def wbar (cf : CensusFrame) (g : String) : ℚ :=
  cf.groupTot g / (cf.groupLen g : ℚ)

end CensusFrame

/-- pandas `Series.mean()` with the default `skipna=True`: NaNs are
dropped, an empty remainder gives NaN, and infinities propagate through
the float sum. -/
noncomputable def pmeanSkipNan (l : List PVal) : PVal :=
  let l2 := l.filter (fun v => match v with | PVal.nan => false | _ => true)
  if l2.isEmpty then PVal.nan
  else pdiv (pvalSum l2) (PVal.val (l2.length : ℝ))

/-- Real-number sample variance with `ddof = 1` (the pandas `.var()`
default). -/
noncomputable def varReal (l : List ℝ) : ℝ :=
  ((l.map (fun x => (x - l.sum / (l.length : ℝ)) ^ 2)).sum) / ((l.length : ℝ) - 1)

/-- Extract the finite value of a `PVal` (junk elsewhere; only used under
an all-finite guard). -/
def pvalToReal : PVal → ℝ
  | PVal.val x => x
  | _ => 0

/-- pandas `Series.var()` with `skipna=True` and `ddof = 1`: NaNs dropped,
a remainder of at most one entry gives NaN, any infinity gives NaN
(`inf - inf` arises in the centred squares). -/
noncomputable def pvarSkipNan (l : List PVal) : PVal :=
  let l2 := l.filter (fun v => match v with | PVal.nan => false | _ => true)
  if l2.length ≤ 1 then PVal.nan
  else if l2.all (fun v => match v with | PVal.val _ => true | _ => false) then
    PVal.val (varReal (l2.map pvalToReal))
  else PVal.nan

/-- numpy elementwise `np.log`: NaN on negatives, `-inf` at zero. -/
noncomputable def plog : PVal → PVal
  | PVal.val x => if x < 0 then PVal.nan else if x = 0 then PVal.ninf else PVal.val (Real.log x)
  | PVal.inf => PVal.inf
  | PVal.ninf => PVal.nan
  | PVal.nan => PVal.nan
  | PVal.str _ => PVal.nan

namespace CensusFrame

/-- The weighted series `group[val] * (group[wt] / group[wt].mean())`
built by `weighted_mean` / `weighted_variance` for group `g` and value
column `v`. -/
noncomputable def weightedSeries (cf : CensusFrame) (g : String) (v : String) : List PVal :=
  (cf.rowsOf g).map (fun i =>
    pmul (PVal.val (cfNumVal cf i v))
         (pdiv (PVal.val (cf.tot i)) (PVal.val (cf.wbar g))))

/-- Pipeline operation `calculate_group_sums` with an explicit variable
list (the `var_regex` path additionally mutates the shared default-list
object across calls; the operations are modelled as called with a fresh
explicit list).  An empty selection raises, an unknown column is a
`KeyError`. -/
noncomputable def calculate_group_sums_df (cf : CensusFrame)
    (var_list : List String) : Except PyErr DF :=
  if var_list = [] then Except.error PyErr.exception
  else if var_list.all (fun v => v ∈ cfNumCols cf) then
    Except.ok (mkDF cf.grpKeys var_list (fun k c => match k with
      | RKey.grp g => PVal.val (((cf.rowsOf g).map (fun i => cfNumVal cf i c)).sum)
      | _ => PVal.nan))
  else Except.error PyErr.keyError

/-- Pipeline operation `calculate_group_means`: plain per-group means of
the listed columns, plus `<var>_weighted` columns from `weighted_mean`
when `weighted`. -/
noncomputable def calculate_group_means_df (cf : CensusFrame)
    (weighted : Bool) (var_list : List String) : Except PyErr DF :=
  if var_list = [] then Except.error PyErr.exception
  else if var_list.all (fun v => v ∈ cfNumCols cf) then
    Except.ok (mkDF cf.grpKeys
      (var_list ++ (if weighted then var_list.map (fun v => v ++ "_weighted") else []))
      (fun k c => match k with
        | RKey.grp g =>
            if c ∈ var_list then
              PVal.val ((((cf.rowsOf g).map (fun i => cfNumVal cf i c)).sum) / (cf.groupLen g : ℚ))
            else match var_list.find? (fun v => c = v ++ "_weighted") with
              | some v => pmeanSkipNan (cf.weightedSeries g v)
              | none => PVal.nan
        | _ => PVal.nan))
  else Except.error PyErr.keyError

/-- Pipeline operation `calculate_group_variance`: per-group sample
variances (renamed `<var>_variance`), plus `<var>_weighted_var` columns
from `weighted_variance` (optionally in log space) when `weighted`. -/
noncomputable def calculate_group_variance_df (cf : CensusFrame)
    (weighted : Bool) (var_list : List String) (log : Bool) : Except PyErr DF :=
  if var_list = [] then Except.error PyErr.exception
  else if var_list.all (fun v => v ∈ cfNumCols cf) then
    Except.ok (mkDF cf.grpKeys
      (var_list.map (fun v => v ++ "_variance")
        ++ (if weighted then var_list.map (fun v => v ++ "_weighted_var") else []))
      (fun k c => match k with
        | RKey.grp g =>
            match var_list.find? (fun v => c = v ++ "_variance") with
            | some v =>
                pvarSkipNan ((cf.rowsOf g).map (fun i => PVal.val (cfNumVal cf i v)))
            | none =>
                match var_list.find? (fun v => c = v ++ "_weighted_var") with
                | some v =>
                    if log then pvarSkipNan ((cf.weightedSeries g v).map plog)
                    else pvarSkipNan (cf.weightedSeries g v)
                | none => PVal.nan
        | _ => PVal.nan))
  else Except.error PyErr.keyError

end CensusFrame

/-- Mutable state of a `CensusFrame` instance: the two tracked result
tables, the cached per-bin DKL table (`self.DKL_n`), and whether the
first `p_n` call has stored its result in the instance attribute `p_n`
(which shadows the method of the same name). -/
structure PState where
  nhood : DF
  city : Option DF
  dklCache : Option DF
  pnShadow : Bool

/-- The decorator `_append_to_df`: a result whose row count matches the
unit table is outer-joined into it; otherwise, with no group table yet
and fewer than 10000 rows the result becomes the group table (reading
`len(self.city_df)` without one raises `AttributeError`); a row count
matching the group table joins into it; anything else falls back to
joining into the unit table (the source's explicit HACK).  The wrapped
function's own result is returned unchanged. -/
noncomputable def appendToDf (s : PState) (new : DF) : Except PyErr (PState × DF) :=
  if new.idx.length = s.nhood.idx.length then
    Except.ok ({ s with nhood := s.nhood.appendJoin new }, new)
  else
    match s.city with
    | none =>
        if new.idx.length < 10000 then Except.ok ({ s with city := some new }, new)
        else Except.error PyErr.attributeError
    | some c =>
        if new.idx.length = c.idx.length then
          Except.ok ({ s with city := some (c.appendJoin new) }, new)
        else
          Except.ok ({ s with nhood := s.nhood.appendJoin new }, new)

namespace CensusFrame

/-- The published operations (group aggregations taken with an explicit,
freshly supplied variable list). -/
inductive Op where
  | p_n : Op
  | nhood_weights : Op
  | entropy_y : Bool → Op
  | dkl_y : Op
  | entropy_n : Bool → Op
  | dkl_n : Op
  | mutual_info : Op
  | group_sums : List String → Op
  | group_means : Bool → List String → Op
  | group_variance : Bool → List String → Bool → Op
deriving DecidableEq

/-- Call of `p_n`: after the first call the instance attribute `p_n`
(a DataFrame) shadows the method, so a second call is a `TypeError`
(`'DataFrame' object is not callable`). -/
noncomputable def run_p_n (cf : CensusFrame) (s : PState) : Except PyErr (PState × DF) :=
  if s.pnShadow then Except.error PyErr.typeError
  else appendToDf { s with pnShadow := true } (p_n_df cf)

/-- Call of `entropy_n`: with no bin columns `self._entropy(p_n)[0]`
indexes an empty array (`IndexError`); with `calc_dkl` the per-bin DKL
table is computed in the same pass, stored in `self.DKL_n`, and returned
concatenated to the entropy columns. -/
noncomputable def run_entropy_n (cf : CensusFrame) (calc_dkl : Bool) (s : PState) :
    Except PyErr (PState × DF) :=
  if cf.binCols.isEmpty then Except.error PyErr.indexError
  else if calc_dkl then
    appendToDf { s with dklCache := some (cf.freshDKLn) }
      ((cf.entropy_n_H_df).hconcat (cf.freshDKLn))
  else appendToDf s (cf.entropy_n_H_df)

/-- Call of `dkl_n`: returns the cached `self.DKL_n` if the attribute is
set, otherwise computes and stores it. -/
noncomputable def run_dkl_n (cf : CensusFrame) (s : PState) : Except PyErr (PState × DF) :=
  match s.dklCache with
  | some d => appendToDf s d
  | none => appendToDf { s with dklCache := some (cf.freshDKLn) } (cf.freshDKLn)

/-- Call of `mutual_info`: calls `self.dkl_n()` (the full decorated
method), then appends the `MI` column built from that table. -/
noncomputable def run_mutual_info (cf : CensusFrame) (s : PState) :
    Except PyErr (PState × DF) :=
  match run_dkl_n cf s with
  | Except.error e => Except.error e
  | Except.ok sd => appendToDf sd.1 (cf.mi_df sd.2)

/-- One published call dispatched on the operation. -/
noncomputable def runOp (cf : CensusFrame) : Op → PState → Except PyErr (PState × DF)
  | Op.p_n, s => run_p_n cf s
  | Op.nhood_weights, s =>
      match nhood_weights_df cf with
      | Except.error e => Except.error e
      | Except.ok d => appendToDf s d
  | Op.entropy_y c, s => appendToDf s (cf.entropy_y_df c)
  | Op.dkl_y, s => appendToDf s (cf.dkl_y_df)
  | Op.entropy_n b, s => run_entropy_n cf b s
  | Op.dkl_n, s => run_dkl_n cf s
  | Op.mutual_info, s => run_mutual_info cf s
  | Op.group_sums vl, s =>
      match calculate_group_sums_df cf vl with
      | Except.error e => Except.error e
      | Except.ok d => appendToDf s d
  | Op.group_means w vl, s =>
      match calculate_group_means_df cf w vl with
      | Except.error e => Except.error e
      | Except.ok d => appendToDf s d
  | Op.group_variance w vl lg, s =>
      match calculate_group_variance_df cf w vl lg with
      | Except.error e => Except.error e
      | Except.ok d => appendToDf s d

/-- State of a freshly constructed `CensusFrame`: `nhood_df` is a copy of
the raw table, no group table, no DKL cache, the `p_n` method not yet
shadowed. -/
noncomputable def initState (cf : CensusFrame) : PState :=
  { nhood := mkDF cf.unitKeys cf.selfCols (fun k c => match k with
      | RKey.unit i =>
          if c = cf.tot_col then PVal.val (cf.tot i)
          else if c = cf.group_col then PVal.str (cf.group i)
          else PVal.val (cf.bins i c)
      | _ => PVal.nan),
    city := none, dklCache := none, pnShadow := false }

end CensusFrame

/-!
Embedding of `cumulants.py`.  Note three slips in that module: the
signature `moment_hist(hist_data, bin_edges=BINS_EDGES, ...)` references
the undefined name `BINS_EDGES` (so even importing the module raises
`NameError`; the functions are modelled per call with the edges supplied
explicitly, as every in-repo call does); `math.sqrt` is used without
importing `math` (reached whenever `n > 2`); and `cumulant_hist`'s
parameter is spelled `satndardized` while the body reads `standardized`
(reached by every call that survives the moment loop).
-/

namespace Cumulants

/-- Per-bin (area, midpoint) pairs of the histogram: `_bin_area` gives
`count * |edge(i+1) - edge(i)|`, the midpoint is `np.mean` of the two
edges. -/
def histTerms (hist_data bin_edges : List ℚ) : List (ℚ × ℚ) :=
  (List.range hist_data.length).map (fun i =>
    (hist_data.getD i 0 * |bin_edges.getD (i + 1) 0 - bin_edges.getD i 0|,
     (bin_edges.getD (i + 1) 0 + bin_edges.getD i 0) / 2))

/-- Model of `_total_area`: summed bin areas. -/
def _total_area (hist_data bin_edges : List ℚ) : ℚ :=
  ((histTerms hist_data bin_edges).map Prod.fst).sum

/-- The `n = 1` branch of `moment_hist`: area-weighted mean of the bin
midpoints. -/
def moment1 (hist_data bin_edges : List ℚ) : ℚ :=
  ((histTerms hist_data bin_edges).map (fun t => t.2 * t.1)).sum
    / _total_area hist_data bin_edges

/-- Model of `moment_hist`: a bin-edge list whose length is not one more
than the data's raises; for `n > 1` without `central` the body reads the
never-assigned local `mean` (`NameError`); for `n > 2` the standardising
branch calls `math.sqrt` with `math` unimported (`NameError`, raised
after the loop, hence after any `mean` failure); otherwise the central
moment by histogram integration. -/
def moment_hist (hist_data bin_edges : List ℚ) (n : ℕ) (central : Bool) :
    Except PyErr ℚ :=
  if hist_data.length + 1 ≠ bin_edges.length then Except.error PyErr.exception
  else if n ≤ 1 then Except.ok (moment1 hist_data bin_edges)
  else if ¬central then Except.error (PyErr.nameError "mean")
  else if n > 2 then Except.error (PyErr.nameError "math")
  else
    Except.ok (((histTerms hist_data bin_edges).map
      (fun t => (t.2 - moment1 hist_data bin_edges) ^ n * t.1)).sum
      / _total_area hist_data bin_edges)

/-- Model of `cumulant_hist`: orders outside 1..6 raise `ValueError`;
otherwise the moment loop runs `moment_hist` for `k = 1..n` (its first
failure propagates — `NameError 'math'` as soon as `n ≥ 3`), and any call
surviving the loop dies at `if standardized and n > 2` because the
parameter is spelled `satndardized` (`NameError 'standardized'`).  No
call with a valid order ever returns a value. -/
def cumulant_hist (hist_data bin_edges : List ℚ) (n : ℕ) (_satndardized : Bool) :
    Except PyErr ℚ :=
  if n > 6 ∨ n < 1 then Except.error PyErr.valueError
  else
    match (List.range' 1 n).findSome? (fun k =>
      match moment_hist hist_data bin_edges k true with
      | Except.error e => some e
      | Except.ok _ => none) with
    | some e => Except.error e
    | none => Except.error (PyErr.nameError "standardized")

/-- Model of `scipy.stats.moment(data, moment=k)`: the k-th central
moment of the sample (exact rational arithmetic; `moment=1` is exactly
zero, as scipy returns). -/
def st_moment (data : List ℚ) (k : ℕ) : ℚ :=
  ((data.map (fun x => (x - data.sum / (data.length : ℚ)) ^ k)).sum) / (data.length : ℚ)

/-- Model of `cumulant`: orders outside 1..6 raise `ValueError`;
otherwise the n-th cumulant from central moments (with `mu[2]`
overwritten by 1 when standardising an order above 2). -/
def cumulant (data : List ℚ) (n : ℕ) (standardized : Bool) : Except PyErr ℚ :=
  if n > 6 ∨ n < 1 then Except.error PyErr.valueError
  else
    let mu : ℕ → ℚ := fun k =>
      if standardized ∧ 2 < n ∧ k = 2 then 1 else st_moment data k
    if n = 1 then Except.ok (data.sum / (data.length : ℚ))
    else if n = 2 then Except.ok (mu 2)
    else if n = 3 then Except.ok (mu 3)
    else if n = 4 then Except.ok (mu 4 - 3 * mu 2 ^ 2)
    else if n = 5 then Except.ok (mu 5 - 10 * mu 3 * mu 2)
    else Except.ok (mu 6 - 15 * mu 4 * mu 2 - 10 * mu 3 ^ 2 + 30 * mu 2 ^ 3)

end Cumulants

/-- Concrete three-unit, two-group table of the spec's fixed scenario:
group A holds the rows [10, 0] and [0, 10], group B the row [5, 5], and
every row total is 10 (constructed with the default configuration, in
particular `group_name = 'CITY'`). -/
def cfC2 : CensusFrame where
  nrows := 3
  binCols := ["ACSHINC1", "ACSHINC2"]
  bins := fun i c =>
    if c = "ACSHINC1" then [(10 : ℚ), 0, 5].getD i 0
    else if c = "ACSHINC2" then [(0 : ℚ), 10, 5].getD i 0
    else 0
  tot := fun _ => 10
  group := fun i => if i ≤ 1 then "A" else "B"
  tot_col := "ACSTOTHH"
  group_col := "CITY_NAME"
  group_name := "CITY"

/-- Name-hygiene condition for a `CensusFrame` configured with the
default group display name: the bin columns carry no duplicate label, no
raw column is literally named like one of the `'_CITY'`-suffixed join
columns (pandas would otherwise produce duplicate labels whose behaviour
the pipeline does not define), and no bin column is named like a
`'_W'`-suffixed weight column of another bin (otherwise the loop's
in-place writes feed later iterations' reads). -/
def weightHyg (cf : CensusFrame) : Prop :=
  cf.group_name = "CITY"
  ∧ cf.binCols.Nodup
  ∧ (cf.tot_col ++ "_CITY" ∉ cf.binCols ∧ cf.tot_col ++ "_CITY" ≠ cf.tot_col
      ∧ cf.tot_col ++ "_CITY" ≠ cf.group_col ∧ cf.tot_col ∉ cf.binCols)
  ∧ (∀ c ∈ cf.binCols, c ++ "_CITY" ∉ cf.binCols ∧ c ++ "_CITY" ≠ cf.tot_col
      ∧ c ++ "_CITY" ≠ cf.group_col)
  ∧ (∀ c ∈ cf.binCols, ∀ b ∈ cf.binCols, c ≠ b ++ "_W")

/-- Concrete table like `cfC2` but whose first row is degenerate: bins
[0, 0] and total 0, inside group A whose second row keeps positive
mass. -/
def cfC3 : CensusFrame where
  nrows := 3
  binCols := ["ACSHINC1", "ACSHINC2"]
  bins := fun i c =>
    if i = 0 then 0
    else if c = "ACSHINC1" then [(0 : ℚ), 10, 5].getD i 0
    else if c = "ACSHINC2" then [(0 : ℚ), 0, 5].getD i 0
    else 0
  tot := fun i => if i = 0 then 0 else 10
  group := fun i => if i ≤ 1 then "A" else "B"
  tot_col := "ACSTOTHH"
  group_col := "CITY_NAME"
  group_name := "CITY"

/-- The scenario table reconfigured with a non-default group display
name (`group_name = 'TOWN'`). -/
def cfC10 : CensusFrame := { cfC2 with group_name := "TOWN" }

/-- A one-row, one-group table whose single bin column is all-zero: its
only `DKL(n|y)` entry is NaN, so the program's NaN-dropping row sum and
a missing-propagating recomputation disagree on `MI`. -/
def cfC1 : CensusFrame where
  nrows := 1
  binCols := ["Z"]
  bins := fun _ _ => 0
  tot := fun _ => 10
  group := fun _ => "A"
  tot_col := "T"
  group_col := "G"
  group_name := "CITY"

/-- A unit-level frame with `n` rows and one column (scenario input for
the `_append_to_df` fallback). -/
noncomputable def dfU (n : ℕ) (c : String) : DF :=
  mkDF ((List.range n).map RKey.unit) [c] (fun _ _ => PVal.val 0)

/-- A group-level frame with the given group keys and one column. -/
noncomputable def dfG (gs : List String) (c : String) : DF :=
  mkDF (gs.map RKey.grp) [c] (fun _ _ => PVal.val 0)

/-- A pipeline state with a 3-row unit table and an established 2-row
group table. -/
noncomputable def sC7 : PState :=
  { nhood := dfU 3 "x", city := some (dfG ["A", "B"] "g"),
    dklCache := none, pnShadow := false }

/-- A derived result with 5 rows — matching neither tracked table of
`sC7`. -/
noncomputable def dC7 : DF := dfG ["P", "Q", "R", "S", "T"] "z"

/-- A frame whose value function is the missing sentinel outside its own
index × columns (every frame the pipeline builds, via `mkDF`). -/
def Normalized (df : DF) : Prop :=
  ∀ k c, ¬(k ∈ df.idx ∧ c ∈ df.cols) → df.val k c = PVal.nan

/-- Invariant of every state a `CensusFrame` instance can reach through
successful published calls (provided the group count differs from the
unit count, the collision the source's own comments flag as the broken
corner of the row-count heuristic): the unit table keeps exactly the
original unit row keys, the group table (once created) keeps exactly the
group keys, and the DKL cache (once set) holds exactly the fresh per-bin
DKL table. -/
def Inv (cf : CensusFrame) (s : PState) : Prop :=
  s.nhood.idx = cf.unitKeys
  ∧ (∀ c, s.city = some c → c.idx = cf.grpKeys)
  ∧ (∀ D, s.dklCache = some D → D = cf.freshDKLn)

/-- States reachable from construction through successful published
calls. -/
inductive Reachable (cf : CensusFrame) : PState → Prop where
  | init : Reachable cf cf.initState
  | step : ∀ {s s2 : PState} {d : DF} {op : CensusFrame.Op},
      Reachable cf s → CensusFrame.runOp cf op s = Except.ok (s2, d) →
      Reachable cf s2

/-- Manual recomputation of mutual information following the spec's
words (the comparator for the refinement check, not translated from the
source): for each group, the sum over bins of (the group's share of its
total mass lying in that bin) times (that bin's `DKL(n|y)_<bin>` value
for the group), the latter looked up BY COLUMN NAME in the per-bin DKL
table that `entropy_n`/`dkl_n` produce. -/
noncomputable def MI_spec (cf : CensusFrame) (g : String) : PVal :=
  pvalSum (cf.binCols.map (fun c =>
    pmul (pdiv (PVal.val (cf.groupSumBin g c)) (PVal.val (cf.groupTot g)))
         ((cf.freshDKLn).val (RKey.grp g) ("DKL(n|y)_" ++ c))))

/-- The same by-name recomputation but with pandas' skipna row sum —
what the program's `.sum(axis=1)` actually computes: NaN products are
silently dropped before summing. -/
noncomputable def MI_skipna (cf : CensusFrame) (g : String) : PVal :=
  pvalSumSkipNan (cf.binCols.map (fun c =>
    pmul (pdiv (PVal.val (cf.groupSumBin g c)) (PVal.val (cf.groupTot g)))
         ((cf.freshDKLn).val (RKey.grp g) ("DKL(n|y)_" ++ c))))

/-!
## Theorems
-/

theorem DF.ext_iff' (a b : DF) :
    a = b ↔ a.idx = b.idx ∧ a.cols = b.cols ∧ a.val = b.val := by
  constructor
  · rintro rfl; exact ⟨rfl, rfl, rfl⟩
  · rcases a with ⟨ai, ac, av⟩; rcases b with ⟨bi, bc, bv⟩
    rintro ⟨rfl, rfl, rfl⟩; rfl

@[simp] theorem mkDF_idx (idx : List RKey) (cols : List String)
    (f : RKey → String → PVal) : (mkDF idx cols f).idx = idx := rfl

@[simp] theorem mkDF_cols (idx : List RKey) (cols : List String)
    (f : RKey → String → PVal) : (mkDF idx cols f).cols = cols := rfl

@[simp] theorem appendJoin_idx (df new : DF) :
    (df.appendJoin new).idx
      = df.idx ++ new.idx.filter (fun k => decide (k ∉ df.idx)) := rfl

@[simp] theorem appendJoin_cols (df new : DF) :
    (df.appendJoin new).cols
      = df.cols.filter (fun c => decide (c ∉ new.cols)) ++ new.cols := rfl

@[simp] theorem mkDF_val (idx : List RKey) (cols : List String)
    (f : RKey → String → PVal) (k : RKey) (c : String) :
    (mkDF idx cols f).val k c
      = if k ∈ idx ∧ c ∈ cols then f k c else PVal.nan := rfl

@[simp] theorem appendJoin_val (df new : DF) (k : RKey) (c : String) :
    (df.appendJoin new).val k c
      = if c ∈ new.cols then (if k ∈ new.idx then new.val k c else PVal.nan)
        else if k ∈ df.idx then df.val k c else PVal.nan := rfl

theorem normalized_mkDF (idx : List RKey) (cols : List String)
    (f : RKey → String → PVal) : Normalized (mkDF idx cols f) := by
  intro k c h
  rw [mkDF_val]
  exact if_neg (by simpa using h)

theorem appendJoin_idx_of_subset (df new : DF)
    (hsub : ∀ k ∈ new.idx, k ∈ df.idx) : (df.appendJoin new).idx = df.idx := by
  simp only [appendJoin_idx]
  have hnil : new.idx.filter (fun k => decide (k ∉ df.idx)) = [] := by
    rw [List.filter_eq_nil_iff]
    intro k hk
    simp [hsub k hk]
  rw [hnil, List.append_nil]

theorem appendJoin_absorb (df new : DF) :
    (df.appendJoin new).appendJoin new = df.appendJoin new := by
  have hsub : ∀ k ∈ new.idx, k ∈ (df.appendJoin new).idx := by
    intro k hk
    simp only [appendJoin_idx, List.mem_append, List.mem_filter]
    by_cases h : k ∈ df.idx
    · exact Or.inl h
    · exact Or.inr ⟨hk, by simp [h]⟩
  rw [DF.ext_iff']
  refine ⟨appendJoin_idx_of_subset _ _ hsub, ?_, ?_⟩
  · have hnil2 : new.cols.filter (fun c => decide (c ∉ new.cols)) = [] := by
      rw [List.filter_eq_nil_iff]
      intro c hc
      simp [hc]
    simp only [appendJoin_cols, List.filter_append, hnil2, List.filter_filter]
    simp
  · funext k c
    by_cases hc : c ∈ new.cols
    · simp [appendJoin_val, hc]
    · by_cases hk : k ∈ df.idx
      · have hkj : k ∈ (df.appendJoin new).idx := by
          simp only [appendJoin_idx, List.mem_append]
          exact Or.inl hk
        simp [appendJoin_val, hc, hk, hkj]
      · by_cases hkn : k ∈ new.idx
        · have hkj : k ∈ (df.appendJoin new).idx := hsub k hkn
          simp [appendJoin_val, hc, hk, hkj]
        · have hkj : k ∉ (df.appendJoin new).idx := by
            simp [appendJoin_idx, List.mem_append, List.mem_filter, hk, hkn]
          simp [appendJoin_val, hc, hk, hkj]

theorem appendJoin_self (d : DF) (hnorm : Normalized d) : d.appendJoin d = d := by
  rw [DF.ext_iff']
  refine ⟨appendJoin_idx_of_subset d d (fun k hk => hk), ?_, ?_⟩
  · have hnil : d.cols.filter (fun c => decide (c ∉ d.cols)) = [] := by
      rw [List.filter_eq_nil_iff]
      intro c hc
      simp [hc]
    simp only [appendJoin_cols, hnil, List.nil_append]
  · funext k c
    by_cases hc : c ∈ d.cols
    · by_cases hk : k ∈ d.idx
      · simp [appendJoin_val, hc, hk]
      · rw [appendJoin_val, if_pos hc, if_neg hk]
        exact (hnorm k c (fun h => hk h.1)).symm
    · by_cases hk : k ∈ d.idx
      · simp [appendJoin_val, hc, hk]
      · rw [appendJoin_val, if_neg hc, if_neg hk]
        exact (hnorm k c (fun h => hk h.1)).symm

theorem mem_appendJoin_left (df new : DF) (k : RKey) (hk : k ∈ df.idx) :
    k ∈ (df.appendJoin new).idx := by
  simp only [appendJoin_idx, List.mem_append]
  exact Or.inl hk

theorem mem_appendJoin_right (df new : DF) (k : RKey) (hk : k ∈ new.idx) :
    k ∈ (df.appendJoin new).idx := by
  simp only [appendJoin_idx, List.mem_append, List.mem_filter]
  by_cases h : k ∈ df.idx
  · exact Or.inl h
  · exact Or.inr ⟨hk, by simp [h]⟩

theorem filter_comm' {α : Type} (l : List α) (p q : α → Bool) :
    (l.filter p).filter q = (l.filter q).filter p := by
  rw [List.filter_filter, List.filter_filter]
  apply List.filter_congr
  intro a _
  exact Bool.and_comm _ _

theorem filter_idem {α : Type} (l : List α) (p : α → Bool) :
    (l.filter p).filter p = l.filter p := by
  rw [List.filter_filter]
  apply List.filter_congr
  intro a _
  exact Bool.and_self _

theorem appendJoin_interleave (Y d m : DF)
    (hYd : Y.appendJoin d = Y)
    (hdisj : ∀ c ∈ m.cols, c ∉ d.cols) :
    ((Y.appendJoin m).appendJoin d).appendJoin m = Y.appendJoin m := by
  have hidx := congrArg DF.idx hYd
  have hcols := congrArg DF.cols hYd
  have hvals := congrArg DF.val hYd
  rw [appendJoin_idx] at hidx
  rw [appendJoin_cols] at hcols
  have hfil : d.idx.filter (fun k => decide (k ∉ Y.idx)) = [] := by
    have hlen := congrArg List.length hidx
    rw [List.length_append] at hlen
    exact List.eq_nil_of_length_eq_zero (by omega)
  have hdsub : ∀ k ∈ d.idx, k ∈ Y.idx := by
    intro k hk
    by_contra hmem
    have : k ∈ d.idx.filter (fun j => decide (j ∉ Y.idx)) :=
      List.mem_filter.mpr ⟨hk, by simp [hmem]⟩
    rw [hfil] at this
    exact List.not_mem_nil k this
  have hval : ∀ k c,
      (if c ∈ d.cols then (if k ∈ d.idx then d.val k c else PVal.nan)
       else if k ∈ Y.idx then Y.val k c else PVal.nan) = Y.val k c := by
    intro k c
    have happ := congrFun (congrFun hvals k) c
    rw [appendJoin_val] at happ
    exact happ
  have hPd_idx : ((Y.appendJoin m).appendJoin d).idx = (Y.appendJoin m).idx :=
    appendJoin_idx_of_subset _ _
      (fun k hk => mem_appendJoin_left _ _ k (hdsub k hk))
  have hd_not_m : ∀ c ∈ d.cols, c ∉ m.cols := fun c hc hm => hdisj c hm hc
  rw [DF.ext_iff']
  refine ⟨?_, ?_, ?_⟩
  · rw [appendJoin_idx_of_subset _ _
      (fun k hk => hPd_idx ▸ mem_appendJoin_right Y m k hk), hPd_idx]
  · show (((Y.appendJoin m).appendJoin d).cols.filter
        (fun c => decide (c ∉ m.cols)) ++ m.cols) = (Y.appendJoin m).cols
    have hdq : d.cols.filter (fun c => decide (c ∉ m.cols)) = d.cols :=
      List.filter_eq_self.mpr (fun c hc => by simp [hd_not_m c hc])
    have hmq : m.cols.filter (fun c => decide (c ∉ m.cols)) = [] := by
      rw [List.filter_eq_nil_iff]
      intro c hc
      simp [hc]
    have hmp : m.cols.filter (fun c => decide (c ∉ d.cols)) = m.cols :=
      List.filter_eq_self.mpr (fun c hc => by simp [hdisj c hc])
    have hkey : (Y.cols.filter (fun c => decide (c ∉ m.cols))).filter
          (fun c => decide (c ∉ d.cols)) ++ d.cols
        = Y.cols.filter (fun c => decide (c ∉ m.cols)) := by
      have h2 := congrArg (fun l => l.filter (fun c => decide (c ∉ m.cols))) hcols
      simp only [List.filter_append, hdq] at h2
      rw [filter_comm'] at h2
      exact h2
    simp only [appendJoin_cols, List.filter_append, hmq, hmp, hdq,
      List.append_nil]
    rw [filter_comm' (Y.cols.filter (fun c => decide (c ∉ m.cols)))
      (fun c => decide (c ∉ d.cols)) (fun c => decide (c ∉ m.cols))]
    rw [filter_idem, hkey]
  · funext k c
    simp only [appendJoin_val, hPd_idx]
    by_cases hcm : c ∈ m.cols
    · simp [hcm]
    · by_cases hcd : c ∈ d.cols
      · have hveq := hval k c
        rw [if_pos hcd] at hveq
        by_cases hkd : k ∈ d.idx
        · have hkY : k ∈ Y.idx := hdsub k hkd
          have hkP : k ∈ (Y.appendJoin m).idx := mem_appendJoin_left _ _ k hkY
          simp [hcm, hcd, hkd, hkY, hkP, ← hveq]
        · simp [hcm, hcd, hkd, ← hveq]
      · by_cases hkY : k ∈ Y.idx <;> by_cases hkm : k ∈ m.idx <;>
          simp [hcm, hcd, hkY, hkm]

theorem appendToDf_unit (s : PState) (new : DF)
    (hlen : new.idx.length = s.nhood.idx.length) :
    appendToDf s new
      = Except.ok ({ s with nhood := s.nhood.appendJoin new }, new) := by
  unfold appendToDf
  rw [if_pos hlen]

theorem appendToDf_create (s : PState) (new : DF) (hc : s.city = none)
    (hlen : new.idx.length ≠ s.nhood.idx.length)
    (hsm : new.idx.length < 10000) :
    appendToDf s new = Except.ok ({ s with city := some new }, new) := by
  simp [appendToDf, hc, hlen, hsm]

theorem appendToDf_attrerr (s : PState) (new : DF) (hc : s.city = none)
    (hlen : new.idx.length ≠ s.nhood.idx.length)
    (hge : ¬new.idx.length < 10000) :
    appendToDf s new = Except.error PyErr.attributeError := by
  simp [appendToDf, hc, hlen, hge]

theorem appendToDf_citymerge (s : PState) (new c : DF) (hc : s.city = some c)
    (hlen : new.idx.length ≠ s.nhood.idx.length)
    (hlen2 : new.idx.length = c.idx.length) :
    appendToDf s new
      = Except.ok ({ s with city := some (c.appendJoin new) }, new) := by
  unfold appendToDf
  rw [if_neg hlen, hc]
  show (if new.idx.length = c.idx.length then
          Except.ok ({ s with city := some (c.appendJoin new) }, new)
        else Except.ok (⟨s.nhood.appendJoin new, some c, s.dklCache,
          s.pnShadow⟩, new))
      = Except.ok ({ s with city := some (c.appendJoin new) }, new)
  rw [if_pos hlen2]

theorem pstate_cache_id (s : PState) (v : Option DF) (h : s.dklCache = v) :
    ({ s with dklCache := v } : PState) = s := by
  cases s
  subst h
  rfl

theorem unitKeys_length (cf : CensusFrame) : cf.unitKeys.length = cf.nrows := by
  simp [CensusFrame.unitKeys]

theorem grpKeys_length (cf : CensusFrame) :
    cf.grpKeys.length = (cf.groupsList).length := by
  simp [CensusFrame.grpKeys]

theorem Inv_appendToDf (cf : CensusFrame) (s s2 : PState) (new d : DF)
    (hInv : Inv cf s) (hG : (cf.groupsList).length ≠ cf.nrows)
    (hidx : new.idx = cf.unitKeys ∨ new.idx = cf.grpKeys)
    (h : appendToDf s new = Except.ok (s2, d)) : Inv cf s2 := by
  rcases hidx with hidx | hidx
  · rw [appendToDf_unit s new (by rw [hidx, hInv.1])] at h
    injection h with h'
    injection h' with h1 h2
    subst h1
    refine ⟨?_, hInv.2.1, hInv.2.2⟩
    rw [appendJoin_idx_of_subset _ _ ?_, hInv.1]
    intro k hk
    rw [hInv.1]
    rw [hidx] at hk
    exact hk
  · have hlen : new.idx.length ≠ s.nhood.idx.length := by
      rw [hidx, hInv.1, grpKeys_length, unitKeys_length]
      exact hG
    cases hcity : s.city with
    | none =>
      by_cases hsm : new.idx.length < 10000
      · rw [appendToDf_create s new hcity hlen hsm] at h
        injection h with h'
        injection h' with h1 h2
        subst h1
        refine ⟨hInv.1, ?_, hInv.2.2⟩
        intro c hc
        injection hc with hc'
        rw [← hc', hidx]
      · rw [appendToDf_attrerr s new hcity hlen hsm] at h
        exact absurd h (by simp)
    | some c =>
      have hci : c.idx = cf.grpKeys := hInv.2.1 c hcity
      have hlen2 : new.idx.length = c.idx.length := by rw [hidx, hci]
      rw [appendToDf_citymerge s new c hcity hlen hlen2] at h
      injection h with h'
      injection h' with h1 h2
      subst h1
      refine ⟨hInv.1, ?_, hInv.2.2⟩
      intro c2 hc2
      injection hc2 with hc2'
      rw [← hc2']
      rw [appendJoin_idx_of_subset _ _ ?_, hci]
      intro k hk
      rw [hci]
      rw [hidx] at hk
      exact hk

theorem appendToDf_ok_of_small (s : PState) (new : DF)
    (h : new.idx.length < 10000) :
    ∃ s2, appendToDf s new = Except.ok (s2, new) := by
  unfold appendToDf
  split
  · exact ⟨_, rfl⟩
  · split
    · exact ⟨_, rfl⟩
    · split
      · exact ⟨_, rfl⟩
      · exact ⟨_, rfl⟩

theorem appendToDf_cache (s : PState) (new : DF) :
    ∀ s2 d, appendToDf s new = Except.ok (s2, d) →
      s2.dklCache = s.dklCache ∧ s2.pnShadow = s.pnShadow ∧ d = new := by
  intro s2 d h
  unfold appendToDf at h
  split at h
  · cases h
    exact ⟨rfl, rfl, rfl⟩
  · split at h
    · split at h
      · cases h
        exact ⟨rfl, rfl, rfl⟩
      · cases h
    · split at h
      · cases h
        exact ⟨rfl, rfl, rfl⟩
      · cases h
        exact ⟨rfl, rfl, rfl⟩

theorem nhood_weights_df_idx (cf : CensusFrame) (w : DF)
    (h : CensusFrame.nhood_weights_df cf = Except.ok w) : w.idx = cf.unitKeys := by
  unfold CensusFrame.nhood_weights_df at h
  split at h
  · cases h
  · split at h
    · injection h with h'
      subst h'
      rfl
    · cases h

theorem calculate_group_sums_df_idx (cf : CensusFrame) (vl : List String) (w : DF)
    (h : CensusFrame.calculate_group_sums_df cf vl = Except.ok w) :
    w.idx = cf.grpKeys := by
  unfold CensusFrame.calculate_group_sums_df at h
  split at h
  · cases h
  · split at h
    · injection h with h'
      subst h'
      rfl
    · cases h

theorem calculate_group_means_df_idx (cf : CensusFrame) (wt : Bool)
    (vl : List String) (w : DF)
    (h : CensusFrame.calculate_group_means_df cf wt vl = Except.ok w) :
    w.idx = cf.grpKeys := by
  unfold CensusFrame.calculate_group_means_df at h
  split at h
  · cases h
  · split at h
    · injection h with h'
      subst h'
      rfl
    · cases h

theorem calculate_group_variance_df_idx (cf : CensusFrame) (wt : Bool)
    (vl : List String) (lg : Bool) (w : DF)
    (h : CensusFrame.calculate_group_variance_df cf wt vl lg = Except.ok w) :
    w.idx = cf.grpKeys := by
  unfold CensusFrame.calculate_group_variance_df at h
  split at h
  · cases h
  · split at h
    · injection h with h'
      subst h'
      rfl
    · cases h

theorem run_dkl_n_spec (cf : CensusFrame) (hG : (cf.groupsList).length ≠ cf.nrows)
    (s sA : PState) (dA : DF) (hInv : Inv cf s)
    (h : CensusFrame.run_dkl_n cf s = Except.ok (sA, dA)) :
    dA = cf.freshDKLn ∧ sA.dklCache = some cf.freshDKLn ∧ Inv cf sA := by
  unfold CensusFrame.run_dkl_n at h
  cases hc : s.dklCache with
  | some D =>
    rw [hc] at h
    have hD : D = cf.freshDKLn := hInv.2.2 D hc
    subst hD
    have hca := appendToDf_cache _ _ sA dA h
    refine ⟨hca.2.2, ?_, ?_⟩
    · rw [hca.1, hc]
    · exact Inv_appendToDf cf s sA _ dA hInv hG (Or.inr rfl) h
  | none =>
    rw [hc] at h
    have hInv2 : Inv cf { s with dklCache := some cf.freshDKLn } :=
      ⟨hInv.1, hInv.2.1, fun D hD => (Option.some.inj hD).symm⟩
    have hca := appendToDf_cache _ _ sA dA h
    exact ⟨hca.2.2, by rw [hca.1],
      Inv_appendToDf cf _ sA _ dA hInv2 hG (Or.inr rfl) h⟩

theorem Inv_step (cf : CensusFrame) (hG : (cf.groupsList).length ≠ cf.nrows)
    (op : CensusFrame.Op) (s s2 : PState) (d : DF) (hInv : Inv cf s)
    (h : CensusFrame.runOp cf op s = Except.ok (s2, d)) : Inv cf s2 := by
  cases op with
  | p_n =>
    simp only [CensusFrame.runOp, CensusFrame.run_p_n] at h
    split at h
    · cases h
    · exact Inv_appendToDf cf ⟨s.nhood, s.city, s.dklCache, true⟩ s2 _ d
        hInv hG (Or.inl rfl) h
  | nhood_weights =>
    simp only [CensusFrame.runOp] at h
    cases hw : CensusFrame.nhood_weights_df cf with
    | error e => rw [hw] at h; cases h
    | ok w =>
      rw [hw] at h
      exact Inv_appendToDf cf s s2 w d hInv hG
        (Or.inl (nhood_weights_df_idx cf w hw)) h
  | entropy_y b =>
    simp only [CensusFrame.runOp] at h
    cases b
    · exact Inv_appendToDf cf s s2 _ d hInv hG (Or.inr rfl) h
    · exact Inv_appendToDf cf s s2 _ d hInv hG (Or.inl rfl) h
  | dkl_y =>
    simp only [CensusFrame.runOp] at h
    exact Inv_appendToDf cf s s2 _ d hInv hG (Or.inl rfl) h
  | entropy_n b =>
    simp only [CensusFrame.runOp, CensusFrame.run_entropy_n] at h
    split at h
    · cases h
    · split at h
      · have hInv2 : Inv cf { s with dklCache := some cf.freshDKLn } :=
          ⟨hInv.1, hInv.2.1, fun D hD => (Option.some.inj hD).symm⟩
        exact Inv_appendToDf cf _ s2 _ d hInv2 hG (Or.inr rfl) h
      · exact Inv_appendToDf cf s s2 _ d hInv hG (Or.inr rfl) h
  | dkl_n =>
    simp only [CensusFrame.runOp] at h
    exact (run_dkl_n_spec cf hG s s2 d hInv h).2.2
  | mutual_info =>
    simp only [CensusFrame.runOp, CensusFrame.run_mutual_info] at h
    cases hd : CensusFrame.run_dkl_n cf s with
    | error e => rw [hd] at h; cases h
    | ok p =>
      rw [hd] at h
      obtain ⟨sA, dA⟩ := p
      obtain ⟨hdA, hcA, hInvA⟩ := run_dkl_n_spec cf hG s sA dA hInv hd
      subst hdA
      exact Inv_appendToDf cf sA s2 _ d hInvA hG (Or.inr rfl) h
  | group_sums vl =>
    simp only [CensusFrame.runOp] at h
    cases hw : CensusFrame.calculate_group_sums_df cf vl with
    | error e => rw [hw] at h; cases h
    | ok w =>
      rw [hw] at h
      exact Inv_appendToDf cf s s2 w d hInv hG
        (Or.inr (calculate_group_sums_df_idx cf vl w hw)) h
  | group_means wt vl =>
    simp only [CensusFrame.runOp] at h
    cases hw : CensusFrame.calculate_group_means_df cf wt vl with
    | error e => rw [hw] at h; cases h
    | ok w =>
      rw [hw] at h
      exact Inv_appendToDf cf s s2 w d hInv hG
        (Or.inr (calculate_group_means_df_idx cf wt vl w hw)) h
  | group_variance wt vl lg =>
    simp only [CensusFrame.runOp] at h
    cases hw : CensusFrame.calculate_group_variance_df cf wt vl lg with
    | error e => rw [hw] at h; cases h
    | ok w =>
      rw [hw] at h
      exact Inv_appendToDf cf s s2 w d hInv hG
        (Or.inr (calculate_group_variance_df_idx cf wt vl lg w hw)) h

theorem reachable_inv (cf : CensusFrame)
    (hG : (cf.groupsList).length ≠ cf.nrows) {s : PState}
    (h : Reachable cf s) : Inv cf s := by
  induction h with
  | init =>
    exact ⟨rfl, fun c hc => Option.noConfusion hc,
      fun D hD => Option.noConfusion hD⟩
  | step hre hstep ih => exact Inv_step cf hG _ _ _ _ ih hstep

theorem str_cancel_right {a b s : String} (h : a ++ s = b ++ s) : a = b := by
  have hd : a.data ++ s.data = b.data ++ s.data := by
    have hds := congrArg String.data h
    simpa [String.data_append] using hds
  exact String.ext (List.append_cancel_right hd)

theorem str_cancel_left {s a b : String} (h : s ++ a = s ++ b) : a = b := by
  have hd : s.data ++ a.data = s.data ++ b.data := by
    have hds := congrArg String.data h
    simpa [String.data_append] using hds
  exact String.ext (List.append_cancel_left hd)

theorem str_us_city (a : String) : a ++ "_" ++ "CITY" = a ++ "_CITY" := by
  rw [String.append_assoc, show ("_" ++ "CITY" : String) = "_CITY" from rfl]

theorem lookup_skip {β : Type} :
    ∀ (l₁ l₂ : List (String × β)) (k : String), (∀ p ∈ l₁, p.1 ≠ k) →
      (l₁ ++ l₂).lookup k = l₂.lookup k
  | [], _, _, _ => rfl
  | (a, b) :: t, l₂, k, h => by
      have hne : k ≠ a := fun hk => (h (a, b) (List.mem_cons_self _ _)) hk.symm
      have hbeq : (k == a) = false := by simpa using hne
      rw [List.cons_append, List.lookup_cons, hbeq]
      exact lookup_skip t l₂ k (fun p hp => h p (List.mem_cons_of_mem _ hp))

theorem lookup_none {β : Type} (l : List (String × β)) (k : String)
    (h : ∀ p ∈ l, p.1 ≠ k) : l.lookup k = none := by
  have hap := lookup_skip l [] k h
  simpa using hap

theorem lookup_map_inj {β : Type} (g : String → String) (f : String → β) (c : String) :
    ∀ (l : List String), c ∈ l → (∀ b, g b = g c → b = c) →
      ∀ (rest : List (String × β)),
        ((l.map (fun b => (g b, f b))) ++ rest).lookup (g c) = some (f c)
  | [], hc, _, _ => absurd hc (List.not_mem_nil c)
  | a :: t, hc, hg, rest => by
      rw [List.map_cons, List.cons_append, List.lookup_cons]
      by_cases hac : g c = g a
      · have hae : a = c := hg a hac.symm
        have hbeq : (g c == g a) = true := by simpa using hac
        rw [hbeq, hae]
      · have hbeq : (g c == g a) = false := by simpa using hac
        rw [hbeq]
        have hct : c ∈ t := by
          rcases List.mem_cons.mp hc with rfl | ht
          · exact absurd rfl hac
          · exact ht
        exact lookup_map_inj g f c t hct hg rest

theorem find_unique {α : Type} (p : α → Bool) (c : α) :
    ∀ (l : List α), (∀ b, p b = true ↔ b = c) → c ∈ l → l.find? p = some c
  | [], _, hc => absurd hc (List.not_mem_nil c)
  | a :: t, hp, hc => by
      by_cases hpa : p a = true
      · rw [List.find?_cons_of_pos _ hpa, (hp a).mp hpa]
      · rw [List.find?_cons_of_neg _ (by simpa using hpa)]
        have hct : c ∈ t := by
          rcases List.mem_cons.mp hc with rfl | ht
          · exact absurd ((hp c).mpr rfl) hpa
          · exact ht
        exact find_unique p c t hp hct

theorem pdiv_nan_left (v : PVal) : pdiv PVal.nan v = PVal.nan := by
  cases v <;> rfl

theorem pdiv_val_val {a b : ℝ} (hb : b ≠ 0) :
    pdiv (PVal.val a) (PVal.val b) = PVal.val (a / b) := by
  simp [pdiv, hb]

theorem pdiv_zero_zero : pdiv (PVal.val 0) (PVal.val 0) = PVal.nan := by
  simp [pdiv]

theorem mem_unitKeys {cf : CensusFrame} {i : ℕ} (hi : i < cf.nrows) :
    RKey.unit i ∈ cf.unitKeys :=
  List.mem_map_of_mem RKey.unit (List.mem_range.mpr hi)

theorem mem_grpKeys {cf : CensusFrame} {g : String} (hg : g ∈ cf.groupsList) :
    RKey.grp g ∈ cf.grpKeys :=
  List.mem_map_of_mem RKey.grp hg

theorem joinedWeightTable_keys (cf : CensusFrame) :
    (cf.joinedWeightTable).map Prod.fst = joinedWeightKeys cf := by
  simp [CensusFrame.joinedWeightTable, joinedWeightKeys, Function.comp_def]

theorem weight_lookup_tot (cf : CensusFrame) (hname : cf.group_name = "CITY")
    (h1 : cf.tot_col ++ "_CITY" ∉ cf.binCols)
    (h2 : cf.tot_col ++ "_CITY" ≠ cf.tot_col)
    (h3 : cf.tot_col ++ "_CITY" ≠ cf.group_col)
    (h4 : cf.tot_col ∉ cf.binCols) :
    (cf.joinedWeightTable).lookup (cf.tot_col ++ "_CITY")
      = some (fun i => PVal.val (cf.groupTot (cf.group i))) := by
  rw [CensusFrame.joinedWeightTable, hname, List.append_assoc]
  rw [lookup_skip]
  · rw [lookup_skip]
    · rw [List.lookup_cons]
      have hbeq : ((cf.tot_col ++ "_CITY") == (cf.tot_col ++ "_" ++ "CITY")) = true := by
        simp [str_us_city]
      rw [hbeq]
    · intro p hp
      obtain ⟨b, hbmem, rfl⟩ := List.mem_map.mp hp
      intro hk
      have hb2 : b ++ "_CITY" = cf.tot_col ++ "_CITY" := by
        rw [← str_us_city b]; exact hk
      exact h4 (str_cancel_right hb2 ▸ hbmem)
  · intro p hp
    rcases List.mem_append.mp hp with hp1 | hp2
    · obtain ⟨b, hbmem, rfl⟩ := List.mem_map.mp hp1
      intro hk
      exact h1 (hk ▸ hbmem)
    · rcases List.mem_cons.mp hp2 with rfl | hp3
      · exact fun hk => h2 hk.symm
      · rcases List.mem_cons.mp hp3 with rfl | hp4
        · exact fun hk => h3 hk.symm
        · exact absurd hp4 (List.not_mem_nil p)

theorem weight_lookup_bin (cf : CensusFrame) (hname : cf.group_name = "CITY")
    (c : String) (hc : c ∈ cf.binCols)
    (hb1 : c ++ "_CITY" ∉ cf.binCols) (hb2 : c ++ "_CITY" ≠ cf.tot_col)
    (hb3 : c ++ "_CITY" ≠ cf.group_col) :
    (cf.joinedWeightTable).lookup (c ++ "_CITY")
      = some (fun i => PVal.val (cf.groupSumBin (cf.group i) c)) := by
  rw [CensusFrame.joinedWeightTable, hname, List.append_assoc]
  rw [lookup_skip]
  · rw [← str_us_city c]
    exact lookup_map_inj (fun b => b ++ "_" ++ "CITY")
      (fun b => fun i => PVal.val (cf.groupSumBin (cf.group i) b)) c cf.binCols hc
      (fun b hgb => by
        have hgb2 : b ++ "_CITY" = c ++ "_CITY" := by
          rw [← str_us_city b, ← str_us_city c]; exact hgb
        exact str_cancel_right hgb2) _
  · intro p hp
    rcases List.mem_append.mp hp with hp1 | hp2
    · obtain ⟨b, hbmem, rfl⟩ := List.mem_map.mp hp1
      intro hk
      exact hb1 (hk ▸ hbmem)
    · rcases List.mem_cons.mp hp2 with rfl | hp3
      · exact fun hk => hb2 hk.symm
      · rcases List.mem_cons.mp hp3 with rfl | hp4
        · exact fun hk => hb3 hk.symm
        · exact absurd hp4 (List.not_mem_nil p)

theorem city_ne_w (a b : String) : a ++ "_CITY" ≠ b ++ "_W" := by
  intro h
  have hd := congrArg (fun s : String => s.data.reverse.head?) h
  simp only [String.data_append, List.reverse_append] at hd
  rw [show (("_CITY" : String).data).reverse = ['Y', 'T', 'I', 'C', '_'] from rfl,
    show (("_W" : String).data).reverse = ['W', '_'] from rfl] at hd
  simp at hd

theorem matchesWSuffix_append (c : String) : matchesWSuffix (c ++ "_W") = true := by
  have hrev : (c ++ "_W").data.reverse = 'W' :: '_' :: c.data.reverse := by
    rw [String.data_append, List.reverse_append]
    rfl
  unfold matchesWSuffix
  rw [hrev]
  rfl

theorem weight_lookup_raw (cf : CensusFrame) (c : String) (hc : c ∈ cf.binCols) :
    (cf.joinedWeightTable).lookup c = some (fun i => PVal.val (cf.bins i c)) := by
  rw [CensusFrame.joinedWeightTable, List.append_assoc, List.append_assoc]
  exact lookup_map_inj id (fun b => fun i => PVal.val (cf.bins i b)) c cf.binCols
    hc (fun b h => h) _

theorem weight_lookup_totcol (cf : CensusFrame) (h4 : cf.tot_col ∉ cf.binCols) :
    (cf.joinedWeightTable).lookup cf.tot_col
      = some (fun i => PVal.val (cf.tot i)) := by
  rw [CensusFrame.joinedWeightTable, List.append_assoc, List.append_assoc]
  rw [lookup_skip]
  · rw [List.cons_append, List.lookup_cons]
    rw [show (cf.tot_col == cf.tot_col) = true from by simp]
  · intro p hp hpk
    obtain ⟨b, hbmem, rfl⟩ := List.mem_map.mp hp
    exact h4 (hpk ▸ hbmem)

theorem weightLoop_lookup_old (cf : CensusFrame) (k : String) :
    ∀ (cols : List String) (tbl : List (String × (ℕ → PVal))),
      (∀ b ∈ cols, k ≠ b ++ "_W") →
      (CensusFrame.weightLoop cf tbl cols).lookup k = tbl.lookup k
  | [], tbl, _ => rfl
  | col :: rest, tbl, h => by
      have hstep : CensusFrame.weightLoop cf tbl (col :: rest)
          = CensusFrame.weightLoop cf
            ((col ++ "_W", fun i =>
              pdiv (pdiv (CensusFrame.readCol tbl col i)
                         (CensusFrame.readCol (cf.joinedWeightTable) cf.tot_col i))
                   (pdiv (CensusFrame.readCol tbl (col ++ "_CITY") i)
                         (CensusFrame.readCol (cf.joinedWeightTable)
                           (cf.tot_col ++ "_CITY") i))) :: tbl) rest := rfl
      rw [hstep, weightLoop_lookup_old cf k rest _
        (fun b hb => h b (List.mem_cons_of_mem _ hb))]
      rw [List.lookup_cons]
      have hne : (k == col ++ "_W") = false := by
        simpa using h col (List.mem_cons_self _ _)
      rw [hne]

theorem weightLoop_lookup_new (cf : CensusFrame) :
    ∀ (cols : List String) (tbl : List (String × (ℕ → PVal))),
      cols.Nodup →
      (∀ c ∈ cols, ∀ b ∈ cf.binCols, c ≠ b ++ "_W") →
      (∀ c ∈ cols, c ∈ cf.binCols) →
      (∀ c ∈ cols, tbl.lookup c = (cf.joinedWeightTable).lookup c
        ∧ tbl.lookup (c ++ "_CITY") = (cf.joinedWeightTable).lookup (c ++ "_CITY")) →
      ∀ c ∈ cols,
        (CensusFrame.weightLoop cf tbl cols).lookup (c ++ "_W")
          = some (fun i =>
              pdiv (pdiv (CensusFrame.readCol (cf.joinedWeightTable) c i)
                         (CensusFrame.readCol (cf.joinedWeightTable) cf.tot_col i))
                   (pdiv (CensusFrame.readCol (cf.joinedWeightTable) (c ++ "_CITY") i)
                         (CensusFrame.readCol (cf.joinedWeightTable)
                           (cf.tot_col ++ "_CITY") i)))
  | [], _, _, _, _, _ => fun c hc => absurd hc (List.not_mem_nil c)
  | col :: rest, tbl, hnd, hskip, hsub, htbl => fun c hc => by
      have hstep : CensusFrame.weightLoop cf tbl (col :: rest)
          = CensusFrame.weightLoop cf
            ((col ++ "_W", fun i =>
              pdiv (pdiv (CensusFrame.readCol tbl col i)
                         (CensusFrame.readCol (cf.joinedWeightTable) cf.tot_col i))
                   (pdiv (CensusFrame.readCol tbl (col ++ "_CITY") i)
                         (CensusFrame.readCol (cf.joinedWeightTable)
                           (cf.tot_col ++ "_CITY") i))) :: tbl) rest := rfl
      rw [hstep]
      rcases List.mem_cons.mp hc with rfl | hcr
      · rw [weightLoop_lookup_old cf (c ++ "_W") rest _ (fun b hb hbeq =>
          (List.nodup_cons.mp hnd).1 ((str_cancel_right hbeq) ▸ hb))]
        rw [List.lookup_cons]
        rw [show ((c ++ "_W") == (c ++ "_W")) = true from by simp]
        have hcm := htbl c (List.mem_cons_self _ _)
        refine congrArg some (funext fun i => ?_)
        unfold CensusFrame.readCol
        rw [hcm.1, hcm.2]
      · refine weightLoop_lookup_new cf rest _ (List.nodup_cons.mp hnd).2
          (fun c2 hc2 b hb => hskip c2 (List.mem_cons_of_mem _ hc2) b hb)
          (fun c2 hc2 => hsub c2 (List.mem_cons_of_mem _ hc2))
          (fun c2 hc2 => ?_) c hcr
        constructor
        · rw [List.lookup_cons, show (c2 == col ++ "_W") = false from by
            simpa using hskip c2 (List.mem_cons_of_mem _ hc2) col
              (hsub col (List.mem_cons_self _ _))]
          exact (htbl c2 (List.mem_cons_of_mem _ hc2)).1
        · rw [List.lookup_cons, show ((c2 ++ "_CITY") == col ++ "_W") = false from by
            simpa using city_ne_w c2 col]
          exact (htbl c2 (List.mem_cons_of_mem _ hc2)).2

theorem nhood_weights_val (cf : CensusFrame) (h : weightHyg cf)
    (i : ℕ) (hi : i < cf.nrows) (c : String) (hc : c ∈ cf.binCols) :
    (CensusFrame.nhood_weights_df cf).toOption.map
        (fun W => W.val (RKey.unit i) (c ++ "_W"))
      = some (replaceInfNan (pdiv
          (pdiv (PVal.val (cf.bins i c)) (PVal.val (cf.tot i)))
          (pdiv (PVal.val (cf.groupSumBin (cf.group i) c))
            (PVal.val (cf.groupTot (cf.group i)))))) := by
  obtain ⟨hname, hnd, ⟨h1, h2, h3, h4⟩, hb, hw⟩ := h
  have hlt := weight_lookup_tot cf hname h1 h2 h3 h4
  have hlb : ∀ b ∈ cf.binCols, (cf.joinedWeightTable).lookup (b ++ "_CITY")
      = some (fun j => PVal.val (cf.groupSumBin (cf.group j) b)) := fun b hbm =>
    weight_lookup_bin cf hname b hbm (hb b hbm).1 (hb b hbm).2.1 (hb b hbm).2.2
  have hcond : ∀ b ∈ cf.binCols,
      ((cf.joinedWeightTable).lookup (b ++ "_CITY")).isSome = true := by
    intro b hbm; rw [hlb b hbm]; rfl
  have hmemcol : c ++ "_W" ∈ (CensusFrame.weightFinalCols cf).filter matchesWSuffix := by
    rw [List.mem_filter]
    refine ⟨?_, matchesWSuffix_append c⟩
    unfold CensusFrame.weightFinalCols
    by_cases hj : c ++ "_W" ∈ joinedWeightKeys cf
    · exact List.mem_append.mpr (Or.inl hj)
    · refine List.mem_append.mpr (Or.inr ?_)
      rw [List.mem_filter]
      exact ⟨List.mem_map_of_mem _ hc, by simpa using hj⟩
  have hloop := weightLoop_lookup_new cf cf.binCols (cf.joinedWeightTable) hnd
    hw (fun x hx => hx) (fun c2 _ => ⟨rfl, rfl⟩) c hc
  rw [CensusFrame.nhood_weights_df, hlt]
  simp only [dif_pos hcond, Except.toOption, Option.map, mkDF]
  rw [if_pos ⟨mem_unitKeys hi, hmemcol⟩]
  show some (replaceInfNan (((CensusFrame.weightLoop cf (cf.joinedWeightTable)
      cf.binCols).lookup (c ++ "_W")).getD (fun _ => PVal.nan) i)) = _
  rw [hloop]
  show some (replaceInfNan (pdiv
      (pdiv (CensusFrame.readCol (cf.joinedWeightTable) c i)
            (CensusFrame.readCol (cf.joinedWeightTable) cf.tot_col i))
      (pdiv (CensusFrame.readCol (cf.joinedWeightTable) (c ++ "_CITY") i)
            (CensusFrame.readCol (cf.joinedWeightTable) (cf.tot_col ++ "_CITY") i))))
    = some (replaceInfNan (pdiv
      (pdiv (PVal.val (cf.bins i c)) (PVal.val (cf.tot i)))
      (pdiv (PVal.val (cf.groupSumBin (cf.group i) c))
        (PVal.val (cf.groupTot (cf.group i))))))
  unfold CensusFrame.readCol
  rw [weight_lookup_raw cf c hc, weight_lookup_totcol cf h4, hlb c hc, hlt]
  rfl

/-- C10: `nhood_weights` resolves the group-sum columns under the
hard-coded `'_CITY'` suffix.  With `group_name = 'CITY'` (and hygienic
column names) every weight column `<bin>_W` is
`(row bin / row total) / (group bin sum / group total)` with `±inf`
replaced by the missing sentinel; with any other `group_name` (so that no
join column is literally named `tot_col + '_CITY'`) the call raises a
`KeyError` instead of returning weights. -/
theorem c10_weights_city_hardcoded :
    (∀ cf : CensusFrame, weightHyg cf → ∀ i, i < cf.nrows → ∀ c ∈ cf.binCols,
      (CensusFrame.nhood_weights_df cf).toOption.map
          (fun W => W.val (RKey.unit i) (c ++ "_W"))
        = some (replaceInfNan (pdiv
            (pdiv (PVal.val (cf.bins i c)) (PVal.val (cf.tot i)))
            (pdiv (PVal.val (cf.groupSumBin (cf.group i) c))
              (PVal.val (cf.groupTot (cf.group i)))))))
  ∧ (∀ cf : CensusFrame, cf.group_name ≠ "CITY" →
      cf.tot_col ++ "_CITY" ∉ joinedWeightKeys cf →
      CensusFrame.nhood_weights_df cf = Except.error PyErr.keyError) := by
  constructor
  · intro cf h i hi c hc
    exact nhood_weights_val cf h i hi c hc
  · intro cf _hname hkey
    have hnone : (cf.joinedWeightTable).lookup (cf.tot_col ++ "_CITY") = none := by
      apply lookup_none
      intro p hp hpk
      apply hkey
      rw [← joinedWeightTable_keys]
      exact hpk ▸ List.mem_map_of_mem Prod.fst hp
    rw [CensusFrame.nhood_weights_df, hnone]

/-- Witness for C10: the positive branch at `cfC2` (`group_name =
'CITY'`), the failing branch at `cfC10` (`group_name = 'TOWN'`). -/
theorem c10_weights_witness :
    (weightHyg cfC2 ∧ 0 < cfC2.nrows ∧ "ACSHINC1" ∈ cfC2.binCols
      ∧ (CensusFrame.nhood_weights_df cfC2).toOption.map
          (fun W => W.val (RKey.unit 0) ("ACSHINC1" ++ "_W"))
        = some (replaceInfNan (pdiv
            (pdiv (PVal.val (cfC2.bins 0 "ACSHINC1")) (PVal.val (cfC2.tot 0)))
            (pdiv (PVal.val (cfC2.groupSumBin (cfC2.group 0) "ACSHINC1"))
              (PVal.val (cfC2.groupTot (cfC2.group 0)))))))
  ∧ (cfC10.group_name ≠ "CITY" ∧ cfC10.tot_col ++ "_CITY" ∉ joinedWeightKeys cfC10
      ∧ CensusFrame.nhood_weights_df cfC10 = Except.error PyErr.keyError) := by
  have hyg : weightHyg cfC2 := by unfold weightHyg; decide
  have hn : cfC10.group_name ≠ "CITY" := by decide
  have hk : cfC10.tot_col ++ "_CITY" ∉ joinedWeightKeys cfC10 := by decide
  exact ⟨⟨hyg, by decide, by decide,
      c10_weights_city_hardcoded.1 cfC2 hyg 0 (by decide) "ACSHINC1" (by decide)⟩,
    ⟨hn, hk, c10_weights_city_hardcoded.2 cfC10 hn hk⟩⟩

/-- C3 counterexample: in `cfC3` row 0 has total 0 (and zero bins), yet
`p_n` yields the finite value 0 — not the missing sentinel the claim
promises for every derived per-row metric. -/
theorem c3_p_n_zero_not_nan :
    (CensusFrame.p_n_df cfC3).val (RKey.unit 0) "p(n)" = PVal.val 0
  ∧ (CensusFrame.p_n_df cfC3).val (RKey.unit 0) "p(n)" ≠ PVal.nan := by
  have hval : (CensusFrame.p_n_df cfC3).val (RKey.unit 0) "p(n)" = PVal.val 0 := by
    have hgt : cfC3.groupTot (cfC3.group 0) = 10 := by
      simp [cfC3, CensusFrame.groupTot, CensusFrame.rowsOf, List.range_succ]
    simp only [CensusFrame.p_n_df, mkDF]
    rw [if_pos ⟨mem_unitKeys (show 0 < cfC3.nrows by decide), by simp⟩]
    show pdiv (PVal.val ((cfC3.tot 0 : ℚ) : ℝ))
      (PVal.val ((cfC3.groupTot (cfC3.group 0) : ℚ) : ℝ)) = PVal.val 0
    rw [hgt, show cfC3.tot 0 = 0 from rfl]
    norm_num [pdiv]
  refine ⟨hval, ?_⟩
  rw [hval]
  exact fun hcontra => PVal.noConfusion hcontra

/-- C3 (amended): for a unit row with zero total and all-zero bins (in a
hygienically named frame with the default group name and at least one
bin column — with no bin columns scipy's entropy of the empty vector is
`0.0`, not missing), `H(y|n)`, `DKL(y|n)` and every per-bin weight
column are the missing sentinel NaN — never `±inf`, with no exception
raised — but `p(n)` is the finite value 0 (the row's zero share of a
group with positive total), not the missing sentinel. -/
theorem c3_zero_total_row (cf : CensusFrame) (hyg : weightHyg cf)
    (hbne : cf.binCols ≠ [])
    (i : ℕ) (hi : i < cf.nrows) (htot : cf.tot i = 0)
    (hbins : ∀ c ∈ cf.binCols, cf.bins i c = 0)
    (hgpos : 0 < cf.groupTot (cf.group i)) :
    (CensusFrame.p_n_df cf).val (RKey.unit i) "p(n)" = PVal.val 0
  ∧ ((cf.entropy_y_df true).val (RKey.unit i) "H(y|n)" = PVal.nan)
  ∧ ((cf.dkl_y_df).val (RKey.unit i) "DKL(y|n)" = PVal.nan)
  ∧ (∀ c ∈ cf.binCols,
      (CensusFrame.nhood_weights_df cf).toOption.map
        (fun W => W.val (RKey.unit i) (c ++ "_W")) = some PVal.nan) := by
  have hsum0 : (cf.binCols.map (fun c => cf.bins i c)).sum = 0 := by
    apply List.sum_eq_zero
    intro y hy
    obtain ⟨c, hcm, rfl⟩ := List.mem_map.mp hy
    exact hbins c hcm
  have hmapne : cf.binCols.map (fun c => cf.bins i c) ≠ [] := by
    simpa using hbne
  refine ⟨?_, ?_, ?_, ?_⟩
  · have hg : ((cf.groupTot (cf.group i) : ℚ) : ℝ) ≠ 0 := by
      exact_mod_cast ne_of_gt hgpos
    simp only [CensusFrame.p_n_df, mkDF]
    rw [if_pos ⟨mem_unitKeys hi, by simp⟩]
    rw [htot]
    rw [show ((0 : ℚ) : ℝ) = (0 : ℝ) from by norm_num]
    rw [pdiv_val_val hg, zero_div]
  · simp only [CensusFrame.entropy_y_df, if_true, mkDF]
    rw [if_pos ⟨mem_unitKeys hi, by simp⟩]
    show stats_entropy (cf.binCols.map (fun c => cf.bins i c)) = PVal.nan
    rw [stats_entropy, if_neg hmapne, if_pos hsum0]
  · simp only [CensusFrame.dkl_y_df, mkDF]
    rw [if_pos ⟨mem_unitKeys hi, by simp⟩]
    show stats_kl (cf.binCols.map (fun c => cf.bins i c))
      (cf.binCols.map (fun c => cf.groupSumBin (cf.group i) c)) = PVal.nan
    rw [stats_kl, if_neg hmapne, if_pos (Or.inl hsum0)]
  · intro c hc
    rw [nhood_weights_val cf hyg i hi c hc]
    rw [hbins c hc, htot]
    rw [show ((0 : ℚ) : ℝ) = (0 : ℝ) from by norm_num]
    rw [pdiv_zero_zero, pdiv_nan_left]
    rfl

/-- Witness for the amended C3 at `cfC3`, row 0. -/
theorem c3_zero_total_witness :
    (weightHyg cfC3 ∧ cfC3.binCols ≠ [] ∧ 0 < cfC3.nrows ∧ cfC3.tot 0 = 0
      ∧ (∀ c ∈ cfC3.binCols, cfC3.bins 0 c = 0)
      ∧ 0 < cfC3.groupTot (cfC3.group 0))
  ∧ ((CensusFrame.p_n_df cfC3).val (RKey.unit 0) "p(n)" = PVal.val 0
    ∧ ((cfC3.entropy_y_df true).val (RKey.unit 0) "H(y|n)" = PVal.nan)
    ∧ ((cfC3.dkl_y_df).val (RKey.unit 0) "DKL(y|n)" = PVal.nan)
    ∧ (∀ c ∈ cfC3.binCols,
        (CensusFrame.nhood_weights_df cfC3).toOption.map
          (fun W => W.val (RKey.unit 0) (c ++ "_W")) = some PVal.nan)) := by
  have hyg : weightHyg cfC3 := by unfold weightHyg; decide
  have hgt : cfC3.groupTot (cfC3.group 0) = 10 := by
    simp [cfC3, CensusFrame.groupTot, CensusFrame.rowsOf, List.range_succ]
  have hg : 0 < cfC3.groupTot (cfC3.group 0) := by rw [hgt]; norm_num
  have hb : ∀ c ∈ cfC3.binCols, cfC3.bins 0 c = 0 := fun c _ => rfl
  exact ⟨⟨hyg, by decide, by decide, rfl, hb, hg⟩,
    c3_zero_total_row cfC3 hyg (by decide) 0 (by decide) rfl hb hg⟩

/-- C5: merge policy of `_append_to_df`'s
`df[old_cols].join(new_df, how='outer')`: result columns are the union
of the two column sets (same-named columns taken from the new result),
rows are outer-joined; a column of the new result holds the new values
on the new result's rows and the missing sentinel on rows only the
target had; a column absent from the new result keeps its previous
values on the target's rows and is the missing sentinel on rows only the
new result brought.  On the fixed 3-row/2-group table,
`entropy_y(True)` followed by `entropy_y(False)` leaves the unit table
with its 3 rows and original columns plus `H(y|n)`, and creates the
group table with exactly 2 rows. -/
theorem c5_merge_policy :
    (∀ df new : DF, ∀ c : String,
        (c ∈ (df.appendJoin new).cols ↔ (c ∈ df.cols ∨ c ∈ new.cols)))
  ∧ (∀ df new : DF, ∀ k : RKey,
        (k ∈ (df.appendJoin new).idx ↔ (k ∈ df.idx ∨ k ∈ new.idx)))
  ∧ (∀ df new : DF, ∀ k c, c ∈ new.cols → k ∈ new.idx →
        (df.appendJoin new).val k c = new.val k c)
  ∧ (∀ df new : DF, ∀ k c, c ∈ new.cols → k ∉ new.idx →
        (df.appendJoin new).val k c = PVal.nan)
  ∧ (∀ df new : DF, ∀ k c, c ∉ new.cols → k ∈ df.idx →
        (df.appendJoin new).val k c = df.val k c)
  ∧ (∀ df new : DF, ∀ k c, c ∉ new.cols → k ∉ df.idx →
        (df.appendJoin new).val k c = PVal.nan)
  ∧ (((CensusFrame.runOp cfC2 (CensusFrame.Op.entropy_y true)
          cfC2.initState).toOption.bind
        (fun x => (CensusFrame.runOp cfC2
          (CensusFrame.Op.entropy_y false) x.1).toOption)).map
        (fun y => (y.1.nhood.idx.length, y.1.nhood.cols,
                   y.1.city.map (fun cd => cd.idx.length)))
      = some (3, ["ACSHINC1", "ACSHINC2", "ACSTOTHH", "CITY_NAME", "H(y|n)"],
          some 2)) := by
  refine ⟨?_, ?_, ?_, ?_, ?_, ?_, ?_⟩
  · intro df new c
    simp [DF.appendJoin]
    tauto
  · intro df new k
    simp [DF.appendJoin]
    tauto
  · intro df new k c hc hk
    simp [DF.appendJoin, hc, hk]
  · intro df new k c hc hk
    simp [DF.appendJoin, hc, hk]
  · intro df new k c hc hk
    simp [DF.appendJoin, hc, hk]
  · intro df new k c hc hk
    simp [DF.appendJoin, hc, hk]
  · decide

/-- Witness for C5's value clauses at small concrete frames. -/
theorem c5_merge_witness :
    ("z" ∈ (dfG ["A"] "z").cols) ∧ (RKey.grp "A" ∈ (dfG ["A"] "z").idx)
  ∧ ((dfU 2 "x").appendJoin (dfG ["A"] "z")).val (RKey.grp "A") "z"
      = (dfG ["A"] "z").val (RKey.grp "A") "z" :=
  ⟨by decide, by decide,
    c5_merge_policy.2.2.1 (dfU 2 "x") (dfG ["A"] "z") (RKey.grp "A") "z"
      (by decide) (by decide)⟩

/-- C7 (amended): a derived result whose row count matches neither
tracked table raises NO shape error when the group table exists — the
source's explicit fallback outer-joins it into the unit table, growing
it; the only exception in `_append_to_df` is an `AttributeError` (not a
shape error) when no group table exists yet and a result of at least
10000 rows differs from the unit table's row count. -/
theorem c7_append_fallback :
    (∀ (s : PState) (new c : DF), s.city = some c →
      new.idx.length ≠ s.nhood.idx.length → new.idx.length ≠ c.idx.length →
      appendToDf s new
        = Except.ok ({ s with nhood := s.nhood.appendJoin new }, new))
  ∧ (∀ (s : PState) (new : DF), s.city = none →
      new.idx.length ≠ s.nhood.idx.length → 10000 ≤ new.idx.length →
      appendToDf s new = Except.error PyErr.attributeError) := by
  constructor
  · intro s new c hc h1 h2
    simp [appendToDf, hc, h1, h2]
  · intro s new hc h1 h2
    simp [appendToDf, hc, h1, Nat.not_lt.mpr h2]

/-- C7 counterexample: with a 3-row unit table and a 2-row group table, a
5-row result is accepted (no exception) and outer-joined into the unit
table, which grows to 8 rows and gains the new column, while the group
table stays at 2 rows — the claimed ShapeMismatchError never happens. -/
theorem c7_no_shape_error :
    (appendToDf sC7 dC7).toOption.map
      (fun x => (x.1.nhood.idx.length, x.1.nhood.cols.contains "z",
                 x.1.city.map (fun cd => cd.idx.length)))
      = some (8, true, some 2) := by
  decide

/-- Witness for the amended C7 at the concrete state `sC7`. -/
theorem c7_append_witness :
    sC7.city = some (dfG ["A", "B"] "g")
  ∧ dC7.idx.length ≠ sC7.nhood.idx.length
  ∧ dC7.idx.length ≠ (dfG ["A", "B"] "g").idx.length
  ∧ appendToDf sC7 dC7
      = Except.ok ({ sC7 with nhood := sC7.nhood.appendJoin dC7 }, dC7) :=
  ⟨rfl, by decide, by decide,
    c7_append_fallback.1 sC7 dC7 (dfG ["A", "B"] "g") rfl (by decide) (by decide)⟩

theorem run_dkl_n_cached (cf : CensusFrame) (s : PState) (D : DF)
    (h : s.dklCache = some D) :
    CensusFrame.run_dkl_n cf s = appendToDf s D := by
  unfold CensusFrame.run_dkl_n
  rw [h]

theorem run_mutual_info_eval (cf : CensusFrame) (s : PState)
    (hc : s.dklCache = none ∨ s.dklCache = some cf.freshDKLn)
    (hsmall : (cf.groupsList).length < 10000) :
    (CensusFrame.run_mutual_info cf s).toOption.map (fun x => x.2)
      = some (cf.mi_df cf.freshDKLn) := by
  have hlen : (cf.freshDKLn).idx.length < 10000 := by
    simpa [CensusFrame.freshDKLn, CensusFrame.grpKeys] using hsmall
  have hdkl : ∃ s2, CensusFrame.run_dkl_n cf s = Except.ok (s2, cf.freshDKLn) := by
    rcases hc with hc | hc
    · unfold CensusFrame.run_dkl_n
      rw [hc]
      exact appendToDf_ok_of_small _ _ hlen
    · unfold CensusFrame.run_dkl_n
      rw [hc]
      exact appendToDf_ok_of_small _ _ hlen
  obtain ⟨s2, h2⟩ := hdkl
  have hmi : (cf.mi_df cf.freshDKLn).idx.length < 10000 := by
    simpa [CensusFrame.mi_df, CensusFrame.freshDKLn, CensusFrame.grpKeys] using hsmall
  obtain ⟨s3, h3⟩ := appendToDf_ok_of_small s2 (cf.mi_df cf.freshDKLn) hmi
  unfold CensusFrame.run_mutual_info
  rw [h2]
  show ((appendToDf s2 (cf.mi_df cf.freshDKLn)).toOption.map (fun x => x.2))
    = some (cf.mi_df cf.freshDKLn)
  rw [h3]
  rfl

theorem mi_df_val (cf : CensusFrame) (g : String) (hg : g ∈ cf.groupsList) :
    (cf.mi_df cf.freshDKLn).val (RKey.grp g) "MI" = MI_skipna cf g := by
  have hmem : RKey.grp g ∈ (cf.freshDKLn).idx := mem_grpKeys hg
  simp only [CensusFrame.mi_df, mkDF]
  rw [if_pos ⟨hmem, by simp⟩]
  show pvalSumSkipNan ((cf.binCols.zip (cf.freshDKLn).cols).map _) = MI_skipna cf g
  have hzip : cf.binCols.zip ((cf.freshDKLn).cols)
      = cf.binCols.map (fun c => (c, "DKL(n|y)_" ++ c)) := by
    show cf.binCols.zip (cf.binCols.map (fun c => "DKL(n|y)_" ++ c)) = _
    simpa using List.zip_map' id (fun c => "DKL(n|y)_" ++ c) cf.binCols
  rw [hzip, List.map_map, MI_skipna]
  rfl

theorem mi_not_dkl_col (b : String) : "DKL(n|y)_" ++ b ≠ "MI" := by
  intro h
  have hd := congrArg (fun t : String => t.data.length) h
  simp only [String.data_append, List.length_append] at hd
  rw [show ("DKL(n|y)_" : String).data.length = 9 from rfl,
    show ("MI" : String).data.length = 2 from rfl] at hd
  omega

theorem nhood_weights_df_norm (cf : CensusFrame) (w : DF)
    (h : CensusFrame.nhood_weights_df cf = Except.ok w) : Normalized w := by
  unfold CensusFrame.nhood_weights_df at h
  split at h
  · cases h
  · split at h
    · injection h with h'
      subst h'
      exact normalized_mkDF _ _ _
    · cases h

theorem calculate_group_sums_df_norm (cf : CensusFrame) (vl : List String)
    (w : DF) (h : CensusFrame.calculate_group_sums_df cf vl = Except.ok w) :
    Normalized w := by
  unfold CensusFrame.calculate_group_sums_df at h
  split at h
  · cases h
  · split at h
    · injection h with h'
      subst h'
      exact normalized_mkDF _ _ _
    · cases h

theorem calculate_group_means_df_norm (cf : CensusFrame) (wt : Bool)
    (vl : List String) (w : DF)
    (h : CensusFrame.calculate_group_means_df cf wt vl = Except.ok w) :
    Normalized w := by
  unfold CensusFrame.calculate_group_means_df at h
  split at h
  · cases h
  · split at h
    · injection h with h'
      subst h'
      exact normalized_mkDF _ _ _
    · cases h

theorem calculate_group_variance_df_norm (cf : CensusFrame) (wt : Bool)
    (vl : List String) (lg : Bool) (w : DF)
    (h : CensusFrame.calculate_group_variance_df cf wt vl lg = Except.ok w) :
    Normalized w := by
  unfold CensusFrame.calculate_group_variance_df at h
  split at h
  · cases h
  · split at h
    · injection h with h'
      subst h'
      exact normalized_mkDF _ _ _
    · cases h

theorem grp_case (cf : CensusFrame) (s : PState) (hInv : Inv cf s)
    (hG : (cf.groupsList).length ≠ cf.nrows) (w : DF)
    (hw : w.idx = cf.grpKeys) :
    w.idx.length ≠ s.nhood.idx.length ∧ ∀ c, s.city = some c → c.idx = w.idx :=
  ⟨by rw [hw, hInv.1, grpKeys_length, unitKeys_length]; exact hG,
   fun c hc => by rw [hInv.2.1 c hc, hw]⟩

theorem appendToDf_idem (s s1 : PState) (dd : DF) (hnorm : Normalized dd)
    (hcase : dd.idx = s.nhood.idx
      ∨ (dd.idx.length ≠ s.nhood.idx.length
          ∧ ∀ c, s.city = some c → c.idx = dd.idx))
    (h : appendToDf s dd = Except.ok (s1, dd)) :
    appendToDf s1 dd = Except.ok (s1, dd) := by
  rcases hcase with hidx | ⟨hlen, hcity⟩
  · rw [appendToDf_unit s dd (by rw [hidx])] at h
    injection h with h'
    injection h' with h1 h2
    subst h1
    have hsub : ∀ k ∈ dd.idx, k ∈ s.nhood.idx := by
      intro k hk
      rw [← hidx]
      exact hk
    have hidx2 : (s.nhood.appendJoin dd).idx = s.nhood.idx :=
      appendJoin_idx_of_subset _ _ hsub
    have hlen1 : dd.idx.length
        = ({ s with nhood := s.nhood.appendJoin dd } : PState).nhood.idx.length := by
      show dd.idx.length = (s.nhood.appendJoin dd).idx.length
      rw [hidx2, hidx]
    rw [appendToDf_unit _ dd hlen1]
    show Except.ok ({ s with nhood := (s.nhood.appendJoin dd).appendJoin dd }, dd)
      = Except.ok ({ s with nhood := s.nhood.appendJoin dd }, dd)
    rw [appendJoin_absorb]
  · cases hc : s.city with
    | none =>
      by_cases hsm : dd.idx.length < 10000
      · rw [appendToDf_create s dd hc hlen hsm] at h
        injection h with h'
        injection h' with h1 h2
        subst h1
        rw [appendToDf_citymerge ⟨s.nhood, some dd, s.dklCache, s.pnShadow⟩
          dd dd rfl hlen rfl]
        show Except.ok ({ s with city := some (dd.appendJoin dd) }, dd)
          = Except.ok ({ s with city := some dd }, dd)
        rw [appendJoin_self dd hnorm]
      · rw [appendToDf_attrerr s dd hc hlen hsm] at h
        cases h
    | some c =>
      have hcidx := hcity c hc
      have hlen2 : dd.idx.length = c.idx.length := by rw [hcidx]
      rw [appendToDf_citymerge s dd c hc hlen hlen2] at h
      injection h with h'
      injection h' with h1 h2
      subst h1
      have hjidx : (c.appendJoin dd).idx = c.idx :=
        appendJoin_idx_of_subset _ _ (by intro k hk; rw [hcidx]; exact hk)
      rw [appendToDf_citymerge
        ⟨s.nhood, some (c.appendJoin dd), s.dklCache, s.pnShadow⟩
        dd (c.appendJoin dd) rfl hlen (by rw [hjidx, hcidx])]
      show Except.ok ({ s with city := some ((c.appendJoin dd).appendJoin dd) }, dd)
        = Except.ok ({ s with city := some (c.appendJoin dd) }, dd)
      rw [appendJoin_absorb]

theorem freshDKLn_idx (cf : CensusFrame) : (cf.freshDKLn).idx = cf.grpKeys := rfl

theorem normalized_freshDKLn (cf : CensusFrame) : Normalized cf.freshDKLn :=
  normalized_mkDF _ _ _

theorem mi_cols_disjoint (cf : CensusFrame) :
    ∀ c ∈ (cf.mi_df cf.freshDKLn).cols, c ∉ (cf.freshDKLn).cols := by
  intro c hc hmem
  have hcm : c = "MI" := by
    simpa [CensusFrame.mi_df, mkDF] using hc
  subst hcm
  have hex : ∃ b, b ∈ cf.binCols ∧ "DKL(n|y)_" ++ b = "MI" := by
    simpa [CensusFrame.freshDKLn, mkDF] using hmem
  obtain ⟨b, _, hb⟩ := hex
  exact mi_not_dkl_col b hb

theorem run_dkl_n_idem (cf : CensusFrame)
    (hG : (cf.groupsList).length ≠ cf.nrows) (s s1 : PState) (d1 : DF)
    (hInv : Inv cf s) (h : CensusFrame.run_dkl_n cf s = Except.ok (s1, d1)) :
    CensusFrame.run_dkl_n cf s1 = Except.ok (s1, d1) := by
  obtain ⟨hd, hc1, hInv1⟩ := run_dkl_n_spec cf hG s s1 d1 hInv h
  subst hd
  rw [run_dkl_n_cached cf s1 _ hc1]
  unfold CensusFrame.run_dkl_n at h
  cases hc : s.dklCache with
  | some D =>
    rw [hc] at h
    rw [hInv.2.2 D hc] at h
    exact appendToDf_idem s s1 _ (normalized_freshDKLn cf)
      (Or.inr (grp_case cf s hInv hG _ (freshDKLn_idx cf))) h
  | none =>
    rw [hc] at h
    exact appendToDf_idem ⟨s.nhood, s.city, some cf.freshDKLn, s.pnShadow⟩ s1 _
      (normalized_freshDKLn cf)
      (Or.inr (grp_case cf ⟨s.nhood, s.city, some cf.freshDKLn, s.pnShadow⟩
        ⟨hInv.1, hInv.2.1, fun D hD => (Option.some.inj hD).symm⟩
        hG _ (freshDKLn_idx cf))) h

theorem run_entropy_n_idem (cf : CensusFrame)
    (hG : (cf.groupsList).length ≠ cf.nrows) (b : Bool) (s s1 : PState) (d1 : DF)
    (hInv : Inv cf s)
    (h : CensusFrame.run_entropy_n cf b s = Except.ok (s1, d1)) :
    CensusFrame.run_entropy_n cf b s1 = Except.ok (s1, d1) := by
  unfold CensusFrame.run_entropy_n at h ⊢
  by_cases hbe : cf.binCols.isEmpty
  · rw [if_pos hbe] at h
    cases h
  · rw [if_neg hbe] at h ⊢
    cases b with
    | true =>
      rw [if_pos rfl] at h ⊢
      have hd1 : d1 = (cf.entropy_n_H_df).hconcat cf.freshDKLn :=
        (appendToDf_cache _ _ s1 d1 h).2.2
      subst hd1
      have hc1 : s1.dklCache = some cf.freshDKLn :=
        (appendToDf_cache _ _ s1 _ h).1
      rw [pstate_cache_id s1 _ hc1]
      exact appendToDf_idem ⟨s.nhood, s.city, some cf.freshDKLn, s.pnShadow⟩ s1 _
        (normalized_mkDF _ _ _)
        (Or.inr (grp_case cf ⟨s.nhood, s.city, some cf.freshDKLn, s.pnShadow⟩
          ⟨hInv.1, hInv.2.1, fun D hD => (Option.some.inj hD).symm⟩
          hG _ rfl)) h
    | false =>
      rw [if_neg (by simp)] at h ⊢
      have hd1 : d1 = cf.entropy_n_H_df := (appendToDf_cache _ _ s1 d1 h).2.2
      subst hd1
      exact appendToDf_idem s s1 _ (normalized_mkDF _ _ _)
        (Or.inr (grp_case cf s hInv hG _ rfl)) h

theorem mutual_info_second_call (cf : CensusFrame) (sA s1 : PState) (Y : DF)
    (hj : sA.dklCache = some cf.freshDKLn)
    (hAc : sA.city = some Y)
    (hYj : Y.appendJoin cf.freshDKLn = Y)
    (hYidx : Y.idx = (cf.freshDKLn).idx)
    (hlen : (cf.freshDKLn).idx.length ≠ sA.nhood.idx.length)
    (h : appendToDf sA (cf.mi_df cf.freshDKLn)
      = Except.ok (s1, cf.mi_df cf.freshDKLn)) :
    CensusFrame.run_mutual_info cf s1
      = Except.ok (s1, cf.mi_df cf.freshDKLn) := by
  have hmidx : (cf.mi_df cf.freshDKLn).idx = (cf.freshDKLn).idx := rfl
  have hlenm : (cf.mi_df cf.freshDKLn).idx.length ≠ sA.nhood.idx.length := by
    rw [hmidx]
    exact hlen
  have hlen2 : (cf.mi_df cf.freshDKLn).idx.length = Y.idx.length := by
    rw [hmidx, hYidx]
  have hYMidx : (Y.appendJoin (cf.mi_df cf.freshDKLn)).idx = Y.idx :=
    appendJoin_idx_of_subset Y _ (fun k hk => by rw [hYidx]; exact hk)
  rw [appendToDf_citymerge sA _ Y hAc hlenm hlen2] at h
  injection h with h'
  injection h' with h1 h2
  subst h1
  unfold CensusFrame.run_mutual_info
  have hB : CensusFrame.run_dkl_n cf
      ({ sA with city := some (Y.appendJoin (cf.mi_df cf.freshDKLn)) } : PState)
      = Except.ok
        (⟨sA.nhood,
          some ((Y.appendJoin (cf.mi_df cf.freshDKLn)).appendJoin cf.freshDKLn),
          sA.dklCache, sA.pnShadow⟩, cf.freshDKLn) := by
    rw [run_dkl_n_cached cf
      ⟨sA.nhood, some (Y.appendJoin (cf.mi_df cf.freshDKLn)), sA.dklCache,
        sA.pnShadow⟩ cf.freshDKLn hj]
    rw [appendToDf_citymerge
      ⟨sA.nhood, some (Y.appendJoin (cf.mi_df cf.freshDKLn)), sA.dklCache,
        sA.pnShadow⟩
      cf.freshDKLn (Y.appendJoin (cf.mi_df cf.freshDKLn)) rfl hlen
      (by rw [hYMidx, hYidx])]
  rw [hB]
  have hXidx : ((Y.appendJoin (cf.mi_df cf.freshDKLn)).appendJoin cf.freshDKLn).idx
      = Y.idx := by
    rw [appendJoin_idx_of_subset _ _
      (fun k hk => mem_appendJoin_left Y _ k (by rw [hYidx]; exact hk)), hYMidx]
  have hstep2 : appendToDf
      ⟨sA.nhood,
        some ((Y.appendJoin (cf.mi_df cf.freshDKLn)).appendJoin cf.freshDKLn),
        sA.dklCache, sA.pnShadow⟩ (cf.mi_df cf.freshDKLn)
      = Except.ok
        (⟨sA.nhood, some (Y.appendJoin (cf.mi_df cf.freshDKLn)), sA.dklCache,
          sA.pnShadow⟩, cf.mi_df cf.freshDKLn) := by
    rw [appendToDf_citymerge
      ⟨sA.nhood,
        some ((Y.appendJoin (cf.mi_df cf.freshDKLn)).appendJoin cf.freshDKLn),
        sA.dklCache, sA.pnShadow⟩
      (cf.mi_df cf.freshDKLn)
      ((Y.appendJoin (cf.mi_df cf.freshDKLn)).appendJoin cf.freshDKLn)
      rfl hlenm (by rw [hXidx]; exact hlen2)]
    rw [appendJoin_interleave Y cf.freshDKLn (cf.mi_df cf.freshDKLn) hYj
      (mi_cols_disjoint cf)]
  exact hstep2

theorem run_mutual_info_idem (cf : CensusFrame)
    (hG : (cf.groupsList).length ≠ cf.nrows) (s s1 : PState) (d1 : DF)
    (hInv : Inv cf s)
    (h : CensusFrame.run_mutual_info cf s = Except.ok (s1, d1)) :
    CensusFrame.run_mutual_info cf s1 = Except.ok (s1, d1) := by
  unfold CensusFrame.run_mutual_info at h
  cases hd : CensusFrame.run_dkl_n cf s with
  | error e =>
    rw [hd] at h
    cases h
  | ok p =>
    rw [hd] at h
    obtain ⟨sA, dA⟩ := p
    obtain ⟨hdA, hcA, hInvA⟩ := run_dkl_n_spec cf hG s sA dA hInv hd
    subst hdA
    have hd1 : d1 = cf.mi_df cf.freshDKLn := (appendToDf_cache sA _ s1 d1 h).2.2
    subst hd1
    have key : ∀ (t : PState), t.city = s.city → t.nhood = s.nhood →
        appendToDf t cf.freshDKLn = Except.ok (sA, cf.freshDKLn) →
        ∃ Y : DF, sA.city = some Y ∧ Y.appendJoin cf.freshDKLn = Y
          ∧ Y.idx = (cf.freshDKLn).idx := by
      intro t htc htn happ
      have hlen : (cf.freshDKLn).idx.length ≠ t.nhood.idx.length := by
        rw [freshDKLn_idx, grpKeys_length, htn, hInv.1, unitKeys_length]
        exact hG
      cases hcy : t.city with
      | none =>
        by_cases hsm : (cf.freshDKLn).idx.length < 10000
        · rw [appendToDf_create t _ hcy hlen hsm] at happ
          injection happ with h'
          injection h' with h1 h2
          subst h1
          exact ⟨cf.freshDKLn, rfl,
            appendJoin_self _ (normalized_freshDKLn cf), rfl⟩
        · rw [appendToDf_attrerr t _ hcy hlen hsm] at happ
          cases happ
      | some c =>
        have hcidx : c.idx = (cf.freshDKLn).idx := by
          rw [freshDKLn_idx]
          exact hInv.2.1 c (htc ▸ hcy)
        rw [appendToDf_citymerge t _ c hcy hlen (by rw [hcidx])] at happ
        injection happ with h'
        injection h' with h1 h2
        subst h1
        exact ⟨c.appendJoin cf.freshDKLn, rfl, appendJoin_absorb c _,
          by rw [appendJoin_idx_of_subset c _
            (fun k hk => by rw [hcidx]; exact hk), hcidx]⟩
    unfold CensusFrame.run_dkl_n at hd
    have hY : ∃ Y : DF, sA.city = some Y ∧ Y.appendJoin cf.freshDKLn = Y
        ∧ Y.idx = (cf.freshDKLn).idx := by
      cases hc0 : s.dklCache with
      | some D =>
        rw [hc0] at hd
        rw [hInv.2.2 D hc0] at hd
        exact key s rfl rfl hd
      | none =>
        rw [hc0] at hd
        exact key ⟨s.nhood, s.city, some cf.freshDKLn, s.pnShadow⟩ rfl rfl hd
    obtain ⟨Y, hAc, hYj, hYidx⟩ := hY
    have hlenA : (cf.freshDKLn).idx.length ≠ sA.nhood.idx.length := by
      rw [freshDKLn_idx, grpKeys_length, hInvA.1, unitKeys_length]
      exact hG
    exact mutual_info_second_call cf sA s1 Y hcA hAc hYj hYidx hlenA h

/-- C4 (amended): after the first call of `p_n` the instance attribute
`p_n` (the returned DataFrame, assigned by `self.p_n = p_n`) shadows the
bound method, so a second `p_n()` call raises `TypeError` instead of
returning the same result: on the concrete two-group table the first
call succeeds and the composed second call fails. -/
theorem c4_p_n_not_idempotent :
    (CensusFrame.runOp cfC2 CensusFrame.Op.p_n cfC2.initState).toOption.isSome
      = true
    ∧ ((CensusFrame.runOp cfC2 CensusFrame.Op.p_n cfC2.initState).toOption.bind
        (fun x => (CensusFrame.runOp cfC2 CensusFrame.Op.p_n x.1).toOption)).isNone
      = true :=
  ⟨by decide, by decide⟩

/-- C4: every published pipeline operation other than `p_n` is
idempotent from any reachable state of a table whose group count differs
from its row count: if the first call succeeds, running it again returns
the exact same DataFrame and leaves the tracked state unchanged (the
re-appends are absorbed by the outer join, the DKL cache is re-set to
the value it already has). -/
theorem c4_idempotence (cf : CensusFrame) (op : CensusFrame.Op) (s : PState)
    (hre : Reachable cf s) (hG : (cf.groupsList).length ≠ cf.nrows)
    (hop : op ≠ CensusFrame.Op.p_n) :
    ((CensusFrame.runOp cf op s).toOption.bind
        (fun x => (CensusFrame.runOp cf op x.1).toOption))
      = (CensusFrame.runOp cf op s).toOption := by
  have hInv := reachable_inv cf hG hre
  cases hrun : CensusFrame.runOp cf op s with
  | error e => simp [Except.toOption]
  | ok p =>
    obtain ⟨s1, d1⟩ := p
    have hsecond : CensusFrame.runOp cf op s1 = Except.ok (s1, d1) := by
      cases op with
      | p_n => exact absurd rfl hop
      | nhood_weights =>
        simp only [CensusFrame.runOp] at hrun ⊢
        cases hw : CensusFrame.nhood_weights_df cf with
        | error e =>
          rw [hw] at hrun
          cases hrun
        | ok w =>
          rw [hw] at hrun
          have hd1 : d1 = w := (appendToDf_cache s w s1 d1 hrun).2.2
          subst hd1
          exact appendToDf_idem s s1 d1 (nhood_weights_df_norm cf d1 hw)
            (Or.inl (by rw [nhood_weights_df_idx cf d1 hw, hInv.1])) hrun
      | entropy_y c =>
        simp only [CensusFrame.runOp] at hrun ⊢
        have hd1 : d1 = cf.entropy_y_df c := (appendToDf_cache s _ s1 d1 hrun).2.2
        subst hd1
        cases c with
        | true =>
          exact appendToDf_idem s s1 _ (normalized_mkDF _ _ _)
            (Or.inl (by rw [hInv.1]; rfl)) hrun
        | false =>
          exact appendToDf_idem s s1 _ (normalized_mkDF _ _ _)
            (Or.inr (grp_case cf s hInv hG _ rfl)) hrun
      | dkl_y =>
        simp only [CensusFrame.runOp] at hrun ⊢
        have hd1 : d1 = cf.dkl_y_df := (appendToDf_cache s _ s1 d1 hrun).2.2
        subst hd1
        exact appendToDf_idem s s1 _ (normalized_mkDF _ _ _)
          (Or.inl (by rw [hInv.1]; rfl)) hrun
      | entropy_n b =>
        simp only [CensusFrame.runOp] at hrun ⊢
        exact run_entropy_n_idem cf hG b s s1 d1 hInv hrun
      | dkl_n =>
        simp only [CensusFrame.runOp] at hrun ⊢
        exact run_dkl_n_idem cf hG s s1 d1 hInv hrun
      | mutual_info =>
        simp only [CensusFrame.runOp] at hrun ⊢
        exact run_mutual_info_idem cf hG s s1 d1 hInv hrun
      | group_sums vl =>
        simp only [CensusFrame.runOp] at hrun ⊢
        cases hw : CensusFrame.calculate_group_sums_df cf vl with
        | error e =>
          rw [hw] at hrun
          cases hrun
        | ok w =>
          rw [hw] at hrun
          have hd1 : d1 = w := (appendToDf_cache s w s1 d1 hrun).2.2
          subst hd1
          exact appendToDf_idem s s1 d1 (calculate_group_sums_df_norm cf vl d1 hw)
            (Or.inr (grp_case cf s hInv hG d1
              (calculate_group_sums_df_idx cf vl d1 hw))) hrun
      | group_means wt vl =>
        simp only [CensusFrame.runOp] at hrun ⊢
        cases hw : CensusFrame.calculate_group_means_df cf wt vl with
        | error e =>
          rw [hw] at hrun
          cases hrun
        | ok w =>
          rw [hw] at hrun
          have hd1 : d1 = w := (appendToDf_cache s w s1 d1 hrun).2.2
          subst hd1
          exact appendToDf_idem s s1 d1
            (calculate_group_means_df_norm cf wt vl d1 hw)
            (Or.inr (grp_case cf s hInv hG d1
              (calculate_group_means_df_idx cf wt vl d1 hw))) hrun
      | group_variance wt vl lg =>
        simp only [CensusFrame.runOp] at hrun ⊢
        cases hw : CensusFrame.calculate_group_variance_df cf wt vl lg with
        | error e =>
          rw [hw] at hrun
          cases hrun
        | ok w =>
          rw [hw] at hrun
          have hd1 : d1 = w := (appendToDf_cache s w s1 d1 hrun).2.2
          subst hd1
          exact appendToDf_idem s s1 d1
            (calculate_group_variance_df_norm cf wt vl lg d1 hw)
            (Or.inr (grp_case cf s hInv hG d1
              (calculate_group_variance_df_idx cf wt vl lg d1 hw))) hrun
    simp [Except.toOption, hsecond]

theorem c4_idempotence_witness :
    Reachable cfC2 cfC2.initState
    ∧ (cfC2.groupsList).length ≠ cfC2.nrows
    ∧ CensusFrame.Op.dkl_y ≠ CensusFrame.Op.p_n
    ∧ ((CensusFrame.runOp cfC2 CensusFrame.Op.dkl_y cfC2.initState).toOption.bind
        (fun x => (CensusFrame.runOp cfC2 CensusFrame.Op.dkl_y x.1).toOption))
      = (CensusFrame.runOp cfC2 CensusFrame.Op.dkl_y cfC2.initState).toOption :=
  ⟨Reachable.init, by decide, by decide,
    c4_idempotence cfC2 CensusFrame.Op.dkl_y cfC2.initState Reachable.init
      (by decide) (by decide)⟩

/-- C6: memoization of the per-bin DKL table.  `entropy_n(calc_dkl=True)`
stores exactly the table a fresh `dkl_n` computation would produce
(`self.DKL_n = freshDKLn`); `dkl_n` with the attribute set returns the
cached table as-is (only re-merging it, no recomputation); and
`mutual_info` returns the same `MI` table whether it starts from a state
without the cache or from one primed by `entropy_n(calc_dkl=True)`. -/
theorem c6_dkl_cache :
    (∀ (cf : CensusFrame) (s : PState),
      (CensusFrame.run_entropy_n cf true s).toOption.map (fun x => x.1.dklCache)
        = (CensusFrame.run_entropy_n cf true s).toOption.map
            (fun _ => some cf.freshDKLn))
  ∧ (∀ (cf : CensusFrame) (s : PState) (D : DF), s.dklCache = some D →
      CensusFrame.run_dkl_n cf s = appendToDf s D)
  ∧ (∀ (cf : CensusFrame) (s t : PState),
      s.dklCache = none → t.dklCache = some cf.freshDKLn →
      (cf.groupsList).length < 10000 →
      (CensusFrame.run_mutual_info cf s).toOption.map (fun x => x.2)
        = (CensusFrame.run_mutual_info cf t).toOption.map (fun x => x.2)) := by
  refine ⟨?_, ?_, ?_⟩
  · intro cf s
    unfold CensusFrame.run_entropy_n
    cases hE : cf.binCols.isEmpty
    · simp only [hE, Bool.false_eq_true, if_false, if_true]
      cases hres : appendToDf { s with dklCache := some cf.freshDKLn }
          ((cf.entropy_n_H_df).hconcat cf.freshDKLn) with
      | error e => rfl
      | ok p =>
        obtain ⟨p1, p2⟩ := p
        have hcache := (appendToDf_cache _ _ p1 p2 hres).1
        simp only [Except.toOption, Option.map]
        rw [hcache]
    · rfl
  · intro cf s D h
    exact run_dkl_n_cached cf s D h
  · intro cf s t hs ht hsm
    rw [run_mutual_info_eval cf s (Or.inl hs) hsm,
      run_mutual_info_eval cf t (Or.inr ht) hsm]

/-- Witness for C6 at the fixed scenario table. -/
theorem c6_cache_witness :
    (cfC2.initState.dklCache = none)
  ∧ ({ cfC2.initState with dklCache := some (dfG ["A"] "d") }.dklCache
      = some (dfG ["A"] "d"))
  ∧ ((cfC2.groupsList).length < 10000)
  ∧ (CensusFrame.run_dkl_n cfC2 { cfC2.initState with dklCache := some (dfG ["A"] "d") }
      = appendToDf { cfC2.initState with dklCache := some (dfG ["A"] "d") } (dfG ["A"] "d"))
  ∧ ((CensusFrame.run_mutual_info cfC2 cfC2.initState).toOption.map (fun x => x.2)
      = (CensusFrame.run_mutual_info cfC2
          { cfC2.initState with dklCache := some cfC2.freshDKLn }).toOption.map
          (fun x => x.2)) :=
  ⟨rfl, rfl, by decide,
    c6_dkl_cache.2.1 cfC2 _ (dfG ["A"] "d") rfl,
    c6_dkl_cache.2.2 cfC2 _ _ rfl rfl (by decide)⟩

theorem pvalSumSkipNan_eq_pvalSum (l : List PVal)
    (h : ∀ v ∈ l, PVal.isNan v = false) : pvalSumSkipNan l = pvalSum l := by
  unfold pvalSumSkipNan
  rw [List.filter_eq_self.mpr]
  intro v hv
  simp [h v hv]

/-- C1 counterexample: on the one-bin table `cfC1` whose bin column is
all-zero, the program's `MI` for group A is the finite value 0 (the lone
NaN product is dropped by the pandas row sum), while the spec's
missing-propagating recomputation is NaN. -/
theorem c1_mi_drops_nan_terms :
    (cfC1.mi_df cfC1.freshDKLn).val (RKey.grp "A") "MI" = PVal.val 0
  ∧ MI_spec cfC1 "A" = PVal.nan
  ∧ (cfC1.mi_df cfC1.freshDKLn).val (RKey.grp "A") "MI" ≠ MI_spec cfC1 "A" := by
  have hrows : cfC1.rowsOf "A" = [0] := by
    simp [cfC1, CensusFrame.rowsOf, List.range_succ]
  have hgt : cfC1.groupTot "A" = 10 := by
    rw [CensusFrame.groupTot, hrows]
    norm_num [cfC1]
  have hgsb : cfC1.groupSumBin "A" "Z" = 0 := by
    rw [CensusFrame.groupSumBin, hrows]
    norm_num [cfC1]
  have hbinsZ : (cfC1.rowsOf "A").map (fun i => cfC1.bins i "Z") = [0] := by
    rw [hrows]
    norm_num [cfC1]
  have hkl : stats_kl ((cfC1.rowsOf "A").map (fun i => cfC1.bins i "Z"))
      (cfC1.pnVec "A") = PVal.nan := by
    rw [hbinsZ, stats_kl, if_neg (by simp), if_pos (Or.inl (by norm_num))]
  have hdkl : (cfC1.freshDKLn).val (RKey.grp "A") ("DKL(n|y)_" ++ "Z")
      = PVal.nan := by
    simp only [CensusFrame.freshDKLn, mkDF]
    rw [if_pos ⟨mem_grpKeys (by decide), by decide⟩]
    show (match (cfC1.binCols).find?
        (fun b => decide (("DKL(n|y)_" ++ "Z" : String) = "DKL(n|y)_" ++ b)) with
      | some b => stats_kl ((cfC1.rowsOf "A").map (fun i => cfC1.bins i b))
          (cfC1.pnVec "A")
      | none => PVal.nan) = PVal.nan
    rw [show (cfC1.binCols).find?
        (fun b => decide (("DKL(n|y)_" ++ "Z" : String) = "DKL(n|y)_" ++ b))
        = some "Z" from by decide]
    exact hkl
  have hpd : pdiv (PVal.val ((0 : ℚ) : ℝ)) (PVal.val ((10 : ℚ) : ℝ))
      = PVal.val 0 := by
    rw [pdiv_val_val (by norm_num)]
    norm_num
  have hterm : pmul (pdiv (PVal.val (cfC1.groupSumBin "A" "Z"))
        (PVal.val (cfC1.groupTot "A")))
      ((cfC1.freshDKLn).val (RKey.grp "A") ("DKL(n|y)_" ++ "Z")) = PVal.nan := by
    rw [hgsb, hgt, hdkl, hpd]
    rfl
  have hmi : MI_skipna cfC1 "A" = PVal.val 0 := by
    unfold MI_skipna
    rw [show cfC1.binCols = ["Z"] from rfl]
    rw [List.map_cons, List.map_nil, hterm]
    rfl
  have hspec : MI_spec cfC1 "A" = PVal.nan := by
    unfold MI_spec
    rw [show cfC1.binCols = ["Z"] from rfl]
    rw [List.map_cons, List.map_nil, hterm]
    rfl
  have hval : (cfC1.mi_df cfC1.freshDKLn).val (RKey.grp "A") "MI" = PVal.val 0 := by
    rw [mi_df_val cfC1 "A" (by decide), hmi]
  refine ⟨hval, hspec, ?_⟩
  rw [hval, hspec]
  exact fun hcon => PVal.noConfusion hcon

/-- C1 (amended): the `MI` column produced by `mutual_info` equals, for
every group, the by-name recomputation from the per-bin `DKL(n|y)`
columns taken with pandas' NaN-DROPPING row sum (`.sum(axis=1)`, default
`skipna=True`), whether the per-bin DKL table is computed fresh or
reused from the cache; only when no bin's product term is missing does
this agree with the spec's missing-propagating recomputation
`MI_spec`. -/
theorem c1_mutual_info (cf : CensusFrame) (s : PState)
    (hc : s.dklCache = none ∨ s.dklCache = some cf.freshDKLn)
    (hsmall : (cf.groupsList).length < 10000)
    (g : String) (hg : g ∈ cf.groupsList) :
    ((CensusFrame.run_mutual_info cf s).toOption.map
        (fun x => x.2.val (RKey.grp g) "MI")
      = some (MI_skipna cf g))
  ∧ ((∀ c ∈ cf.binCols, PVal.isNan
        (pmul (pdiv (PVal.val (cf.groupSumBin g c)) (PVal.val (cf.groupTot g)))
          ((cf.freshDKLn).val (RKey.grp g) ("DKL(n|y)_" ++ c))) = false) →
      MI_skipna cf g = MI_spec cf g) := by
  constructor
  · have hdf := run_mutual_info_eval cf s hc hsmall
    cases hrun : CensusFrame.run_mutual_info cf s with
    | error e =>
      rw [hrun] at hdf
      exact absurd hdf (by simp [Except.toOption])
    | ok p =>
      rw [hrun] at hdf
      simp only [Except.toOption, Option.map] at hdf ⊢
      have hp2 : p.2 = cf.mi_df cf.freshDKLn := by injection hdf
      rw [hp2, mi_df_val cf g hg]
  · intro hnn
    unfold MI_skipna MI_spec
    refine pvalSumSkipNan_eq_pvalSum _ (fun v hv => ?_)
    obtain ⟨c, hcm, rfl⟩ := List.mem_map.mp hv
    exact hnn c hcm

/-- Witness for the amended C1 at the fixed scenario table, group A,
from the freshly constructed state. -/
theorem c1_mutual_info_witness :
    (cfC2.initState.dklCache = none ∨ cfC2.initState.dklCache = some cfC2.freshDKLn)
  ∧ ((cfC2.groupsList).length < 10000)
  ∧ ("A" ∈ cfC2.groupsList)
  ∧ (((CensusFrame.run_mutual_info cfC2 cfC2.initState).toOption.map
        (fun x => x.2.val (RKey.grp "A") "MI")
      = some (MI_skipna cfC2 "A"))
    ∧ ((∀ c ∈ cfC2.binCols, PVal.isNan
          (pmul (pdiv (PVal.val (cfC2.groupSumBin "A" c))
              (PVal.val (cfC2.groupTot "A")))
            ((cfC2.freshDKLn).val (RKey.grp "A") ("DKL(n|y)_" ++ c))) = false) →
        MI_skipna cfC2 "A" = MI_spec cfC2 "A")) :=
  ⟨Or.inl rfl, by decide, by decide,
    c1_mutual_info cfC2 cfC2.initState (Or.inl rfl) (by decide) "A" (by decide)⟩

theorem log_two_ne_zero : Real.log 2 ≠ 0 := (Real.log_pos (by norm_num)).ne'

theorem entr_zero : entr 0 = 0 := if_pos rfl

theorem entr_one : entr 1 = 0 := by simp [entr]

theorem entr_half : entr (1 / 2) = Real.log 2 / 2 := by
  rw [entr, if_neg (by norm_num), one_div, Real.log_inv]; ring

theorem relEntr_one_half : relEntr 1 (1 / 2) = Real.log 2 := by
  rw [relEntr, if_neg one_ne_zero]; norm_num

theorem stats_entropy_10_0 : stats_entropy [10, 0] = PVal.val 0 := by
  rw [stats_entropy, if_neg (by simp), if_neg (by norm_num)]
  norm_num [entr_one, entr_zero, LOG_BASE]

theorem stats_entropy_5_5 : stats_entropy [5, 5] = PVal.val 1 := by
  rw [stats_entropy, if_neg (by simp), if_neg (by norm_num)]
  have : ((5 : ℚ) : ℝ) / (((([5, 5] : List ℚ).sum : ℚ)) : ℝ) = 1 / 2 := by norm_num
  norm_num [entr_half, LOG_BASE, div_self log_two_ne_zero]

theorem stats_entropy_10_10 : stats_entropy [10, 10] = PVal.val 1 := by
  rw [stats_entropy, if_neg (by simp), if_neg (by norm_num)]
  norm_num [entr_half, LOG_BASE, div_self log_two_ne_zero]

theorem stats_kl_10_0_10_10 : stats_kl [10, 0] [10, 10] = PVal.val 1 := by
  rw [stats_kl, if_neg (by simp), if_neg (by norm_num), if_neg (by norm_num)]
  norm_num [relEntr, LOG_BASE, div_self log_two_ne_zero]

/-- C2: on the fixed table with groups A = { [10,0], [0,10] } and
B = { [5,5] } and row totals 10, 10, 10, base 2 throughout:
`entropy_y(conditional=True)` gives H(y|n) = 0 for the row [10,0] and
H(y|n) = 1 for the row [5,5]; `entropy_y(conditional=False)` gives
H(y) = 1 for group A (aggregate [10,10]); and `dkl_y()` gives
DKL(y|n) = 1 bit for the row [10,0] against group A's aggregate
distribution [0.5, 0.5]. -/
theorem c2_concrete_scenario :
    (cfC2.entropy_y_df true).val (RKey.unit 0) "H(y|n)" = PVal.val 0
  ∧ (cfC2.entropy_y_df true).val (RKey.unit 2) "H(y|n)" = PVal.val 1
  ∧ (cfC2.entropy_y_df false).val (RKey.grp "A") "H(y)" = PVal.val 1
  ∧ (cfC2.dkl_y_df).val (RKey.unit 0) "DKL(y|n)" = PVal.val 1 := by
  refine ⟨?_, ?_, ?_, ?_⟩
  · have : cfC2.binCols.map (fun c => cfC2.bins 0 c) = [10, 0] := by
      simp [cfC2]
    simp [CensusFrame.entropy_y_df, mkDF, CensusFrame.unitKeys, cfC2, this,
      stats_entropy_10_0]
  · have : cfC2.binCols.map (fun c => cfC2.bins 2 c) = [5, 5] := by
      simp [cfC2]
    simp [CensusFrame.entropy_y_df, mkDF, CensusFrame.unitKeys, cfC2, this,
      stats_entropy_5_5]
  · simp [CensusFrame.entropy_y_df, mkDF, CensusFrame.grpKeys, CensusFrame.groupsList,
      cfC2, List.range_succ, CensusFrame.groupSumBin, CensusFrame.rowsOf,
      stats_entropy_10_10]
  · simp [CensusFrame.dkl_y_df, mkDF, CensusFrame.unitKeys, cfC2,
      CensusFrame.groupSumBin, CensusFrame.rowsOf, List.range_succ,
      stats_kl_10_0_10_10]

/-- C9 (code bug): orders outside 1..6 do raise the domain error in both
`cumulant` and `cumulant_hist`, and `cumulant` on a numeric sample
returns a numeric value for an in-range order — but `cumulant_hist` with
a valid bin-edge count raises `NameError` for EVERY order in 1..6
(`'math'` unimported for orders ≥ 3, the misspelled `satndardized`
parameter for orders 1..2), so it never returns the promised numeric
cumulant. -/
theorem c9_cumulant_order_behavior :
    Cumulants.cumulant_hist [1, 1] [0, 1, 2] 0 false = Except.error PyErr.valueError
  ∧ Cumulants.cumulant_hist [1, 1] [0, 1, 2] 7 false = Except.error PyErr.valueError
  ∧ Cumulants.cumulant [1, 2, 3] 0 false = Except.error PyErr.valueError
  ∧ Cumulants.cumulant [1, 2, 3] 7 false = Except.error PyErr.valueError
  ∧ Cumulants.cumulant_hist [1, 1] [0, 1, 2] 1 false
      = Except.error (PyErr.nameError "standardized")
  ∧ Cumulants.cumulant_hist [1, 1] [0, 1, 2] 2 false
      = Except.error (PyErr.nameError "standardized")
  ∧ Cumulants.cumulant_hist [1, 1] [0, 1, 2] 3 false
      = Except.error (PyErr.nameError "math")
  ∧ Cumulants.cumulant_hist [1, 1] [0, 1, 2] 6 false
      = Except.error (PyErr.nameError "math")
  ∧ Cumulants.cumulant [1, 2, 3] 2 false = Except.ok (2 / 3) :=
  ⟨rfl, rfl, rfl, rfl, rfl, rfl, rfl, rfl, by norm_num [Cumulants.cumulant,
    Cumulants.st_moment]⟩

theorem entr_nonneg {p : ℝ} (h0 : 0 ≤ p) (h1 : p ≤ 1) : 0 ≤ entr p := by
  unfold entr
  split
  · exact le_refl 0
  · have hlog : Real.log p ≤ 0 := Real.log_nonpos h0 h1
    nlinarith

theorem entr_eq_zero_iff {p : ℝ} (h0 : 0 ≤ p) : entr p = 0 ↔ p = 0 ∨ p = 1 := by
  unfold entr
  split
  · rename_i hp; simp [hp]
  · rename_i hp
    constructor
    · intro h
      have hm : p * Real.log p = 0 := neg_eq_zero.mp h
      rcases mul_eq_zero.mp hm with h' | h'
      · exact absurd h' hp
      · rcases Real.log_eq_zero.mp h' with h'' | h'' | h''
        · exact absurd h'' hp
        · exact Or.inr h''
        · exfalso; rw [h''] at h0; linarith
    · rintro (h | h)
      · exact absurd h hp
      · subst h; simp

theorem sum_eq_zero_iff_of_nonneg {α : Type} [LinearOrderedAddCommGroup α] :
    ∀ (l : List α), (∀ x ∈ l, 0 ≤ x) → (l.sum = 0 ↔ ∀ x ∈ l, x = 0)
  | [], _ => by simp
  | a :: t, h => by
      have ha : 0 ≤ a := h a (List.mem_cons_self a t)
      have ht : ∀ x ∈ t, 0 ≤ x := fun x hx => h x (List.mem_cons_of_mem a hx)
      have hts : 0 ≤ t.sum := List.sum_nonneg ht
      rw [List.sum_cons, add_eq_zero_iff_of_nonneg ha hts,
        sum_eq_zero_iff_of_nonneg t ht]
      constructor
      · rintro ⟨h1, h2⟩ x hx
        rcases List.mem_cons.mp hx with rfl | hx2
        · exact h1
        · exact h2 x hx2
      · intro hall
        exact ⟨hall a (List.mem_cons_self a t),
          fun x hx => hall x (List.mem_cons_of_mem a hx)⟩

theorem getD_eq_get_of_lt {α : Type} {d : α} {l : List α} {n : ℕ}
    (h : n < l.length) : l.getD n d = l.get ⟨n, h⟩ := by
  simp [List.getD_eq_getElem?_getD, List.getElem?_eq_getElem h]

theorem exists_full_mass :
    ∀ (l : List ℚ), (∀ x ∈ l, 0 ≤ x) → (∀ x ∈ l, x = 0 ∨ x = l.sum) → 0 < l.sum →
      ∃ i, i < l.length ∧ l.getD i 0 = l.sum ∧
        ∀ j, j < l.length → j ≠ i → l.getD j 0 = 0
  | [], _, _, hpos => by simp at hpos
  | a :: t, hnn, h01, hpos => by
      have hcons : (a :: t).sum = a + t.sum := List.sum_cons
      rcases h01 a (List.mem_cons_self a t) with ha | ha
      · have hsum : (a :: t).sum = t.sum := by rw [hcons, ha, zero_add]
        have ht01 : ∀ x ∈ t, x = 0 ∨ x = t.sum := by
          intro x hx
          rcases h01 x (List.mem_cons_of_mem a hx) with h | h
          · exact Or.inl h
          · exact Or.inr (by rw [h, hsum])
        have htpos : 0 < t.sum := by rw [hsum] at hpos; exact hpos
        obtain ⟨i, hilen, hi, hz⟩ := exists_full_mass t
          (fun x hx => hnn x (List.mem_cons_of_mem a hx)) ht01 htpos
        refine ⟨i + 1, by simpa using Nat.succ_lt_succ hilen, ?_, ?_⟩
        · rw [hsum]; simpa using hi
        · intro j hjlen hj
          cases j with
          | zero => simpa using ha
          | succ j2 =>
            have hne : j2 ≠ i := fun hh => hj (by rw [hh])
            have hjlen2 : j2 < t.length := by simpa using hjlen
            simpa using hz j2 hjlen2 hne
      · have hts : t.sum = 0 := by rw [hcons] at ha; linarith
        have htz : ∀ x ∈ t, x = 0 :=
          (sum_eq_zero_iff_of_nonneg t
            (fun x hx => hnn x (List.mem_cons_of_mem a hx))).mp hts
        refine ⟨0, Nat.succ_pos _, by simpa using ha, ?_⟩
        intro j hjlen hj
        cases j with
        | zero => exact absurd rfl hj
        | succ j2 =>
          have hjlen2 : j2 < t.length := by simpa using hjlen
          have hmem : t.get ⟨j2, hjlen2⟩ ∈ t := t.get_mem j2 hjlen2
          rw [List.getD_cons_succ, getD_eq_get_of_lt hjlen2]
          exact htz _ hmem

/-- C8: for every nonnegative bin vector with positive total mass, the
pipeline's entropy (`_entropy`, i.e. `scipy.stats.entropy` base 2) is a
finite nonnegative value, and it is zero exactly when a single bin
carries the whole mass (that bin equals the total, every other bin is
zero). -/
theorem c8_entropy_nonneg_zero_iff (pk : List ℚ)
    (hnn : ∀ x ∈ pk, 0 ≤ x) (hpos : 0 < pk.sum) :
    (∃ r : ℝ, stats_entropy pk = PVal.val r ∧ 0 ≤ r)
  ∧ (stats_entropy pk = PVal.val 0 ↔
      ∃ i, i < pk.length ∧ pk.getD i 0 = pk.sum ∧
        ∀ j, j < pk.length → j ≠ i → pk.getD j 0 = 0) := by
  have hsne : pk.sum ≠ 0 := ne_of_gt hpos
  have hspos : (0 : ℝ) < ((pk.sum : ℚ) : ℝ) := by exact_mod_cast hpos
  have hnil : pk ≠ [] := by
    rintro rfl
    simp at hpos
  have hval : stats_entropy pk
      = PVal.val (((pk.map (fun x : ℚ => entr ((x : ℝ) / (pk.sum : ℝ)))).sum)
          / Real.log LOG_BASE) := by
    rw [stats_entropy, if_neg hnil, if_neg hsne]
  have hlog2 : (0 : ℝ) < Real.log LOG_BASE := by
    have h2 : ((LOG_BASE : ℕ) : ℝ) = 2 := by norm_num [LOG_BASE]
    rw [h2]; exact Real.log_pos (by norm_num)
  have hterm : ∀ x ∈ pk, 0 ≤ ((x : ℝ) / (pk.sum : ℝ))
      ∧ ((x : ℝ) / (pk.sum : ℝ)) ≤ 1 := by
    intro x hx
    constructor
    · apply div_nonneg _ hspos.le
      exact_mod_cast hnn x hx
    · rw [div_le_one hspos]
      exact_mod_cast List.single_le_sum hnn x hx
  have hLnn : ∀ y ∈ pk.map (fun x : ℚ => entr ((x : ℝ) / (pk.sum : ℝ))), 0 ≤ y := by
    intro y hy
    obtain ⟨x, hx, rfl⟩ := List.mem_map.mp hy
    exact entr_nonneg (hterm x hx).1 (hterm x hx).2
  have hsum_nonneg : 0 ≤ (pk.map (fun x : ℚ => entr ((x : ℝ) / (pk.sum : ℝ)))).sum :=
    List.sum_nonneg hLnn
  constructor
  · exact ⟨_, hval, div_nonneg hsum_nonneg hlog2.le⟩
  · rw [hval]
    have hinj : ∀ r : ℝ, PVal.val r = PVal.val 0 ↔ r = 0 := by
      intro r; constructor
      · intro h; injection h
      · intro h; rw [h]
    rw [hinj, div_eq_zero_iff]
    have hlogne : Real.log LOG_BASE ≠ 0 := ne_of_gt hlog2
    constructor
    · intro h
      rcases h with h | h
      · have hall := (sum_eq_zero_iff_of_nonneg
          (pk.map (fun x : ℚ => entr ((x : ℝ) / (pk.sum : ℝ)))) hLnn).mp h
        have h01 : ∀ x ∈ pk, x = 0 ∨ x = pk.sum := by
          intro x hx
          have hz := hall _
            (List.mem_map_of_mem (fun x : ℚ => entr ((x : ℝ) / (pk.sum : ℝ))) hx)
          rcases (entr_eq_zero_iff (hterm x hx).1).mp hz with h' | h'
          · left
            rcases div_eq_zero_iff.mp h' with h2 | h2
            · exact_mod_cast h2
            · exact absurd h2 (ne_of_gt hspos)
          · right
            rw [div_eq_one_iff_eq (ne_of_gt hspos)] at h'
            exact_mod_cast h'
        exact exists_full_mass pk hnn h01 hpos
      · exact absurd h hlogne
    · rintro ⟨i, hilen, hi, hz⟩
      left
      apply (sum_eq_zero_iff_of_nonneg
        (pk.map (fun x : ℚ => entr ((x : ℝ) / (pk.sum : ℝ)))) hLnn).mpr
      intro y hy
      obtain ⟨x, hx, rfl⟩ := List.mem_map.mp hy
      have h01 : x = 0 ∨ x = pk.sum := by
        obtain ⟨j, rfl⟩ := List.mem_iff_get.mp hx
        by_cases hji : j.1 = i
        · right
          rw [← getD_eq_get_of_lt j.2, hji]
          exact hi
        · left
          have hzz := hz j.1 j.2 hji
          rw [getD_eq_get_of_lt j.2] at hzz
          exact hzz
      apply (entr_eq_zero_iff (hterm x hx).1).mpr
      rcases h01 with rfl | rfl
      · left; simp
      · right
        rw [div_eq_one_iff_eq (ne_of_gt hspos)]

/-- Witness for C8 at the concrete distribution [3, 0]. -/
theorem c8_entropy_witness :
    (∀ x ∈ ([3, 0] : List ℚ), 0 ≤ x) ∧ 0 < ([3, 0] : List ℚ).sum
  ∧ ((∃ r : ℝ, stats_entropy [3, 0] = PVal.val r ∧ 0 ≤ r)
    ∧ (stats_entropy [3, 0] = PVal.val 0 ↔
        ∃ i, i < ([3, 0] : List ℚ).length ∧ ([3, 0] : List ℚ).getD i 0 = ([3, 0] : List ℚ).sum ∧
          ∀ j, j < ([3, 0] : List ℚ).length → j ≠ i → ([3, 0] : List ℚ).getD j 0 = 0)) :=
  ⟨by norm_num, by norm_num,
    c8_entropy_nonneg_zero_iff [3, 0] (by norm_num) (by norm_num)⟩

end StatsNbhd
